import Mathlib

set_option maxRecDepth 8192

/-!
Verification development for the session event-reconciliation engine of
`src/src/server/agent-session.ts`.

The TypeScript source is shallowly embedded: each mutating method of the
`Session` / `SessionManager` classes and each module-level handler function
becomes a pure Lean function threading the session (or registry) state
explicitly.  JavaScript `Map`s become association lists, optional fields
become `Option`, wall-clock time (`Date.now()`) becomes an explicit `Nat`
parameter, and the side-effecting `broadcast` calls become elements of an
output list where a claim needs them.
-/

namespace AgentSession

/-! ## JSON values

Model of the JavaScript JSON data manipulated by the engine.  Numbers are
kept as their source lexeme: every claim compares values obtained by parsing
the same character sequence, so the numeric interpretation is irrelevant. -/

inductive Json where
  | null : Json
  | bool (b : Bool) : Json
  | num (lexeme : String) : Json
  | str (s : String) : Json
  | arr (elems : List Json) : Json
  | obj (fields : List (String × Json)) : Json
deriving Repr

/-- The engine's `ToolInput` type (`src/src/renderer/types/chat`, not under
`src/`) is structurally the JSON object carried as a tool's input. -/
abbrev ToolInput := Json

/-! ## Strict JSON parsing

Model of JavaScript's built-in `JSON.parse` (strict variant: the whole
input must be consumed).  Recursive descent over the character list with a
fuel argument for termination; fuel `length + 1` is always sufficient since
every recursive call consumes at least one character. -/

def isJsonWs (c : Char) : Bool :=
  c = ' ' || c = '\t' || c = '\n' || c = '\r'

def skipWs : List Char → List Char
  | [] => []
  | c :: cs => if isJsonWs c then skipWs cs else c :: cs

def isHexDigit (c : Char) : Bool :=
  ('0' ≤ c && c ≤ '9') || ('a' ≤ c && c ≤ 'f') || ('A' ≤ c && c ≤ 'F')

def hexVal (c : Char) : Nat :=
  if '0' ≤ c && c ≤ '9' then c.toNat - '0'.toNat
  else if 'a' ≤ c && c ≤ 'f' then c.toNat - 'a'.toNat + 10
  else if 'A' ≤ c && c ≤ 'F' then c.toNat - 'A'.toNat + 10
  else 0

/-- Parse the remainder of a JSON string literal (after the opening quote),
returning the decoded characters and the rest of the input.  Fuelled so
that it evaluates inside the kernel; fuel `length + 1` is always enough. -/
def parseStringRest : Nat → List Char → Option (List Char × List Char)
  | 0, _ => none
  | _ + 1, [] => none
  | _ + 1, '"' :: rest => some ([], rest)
  | fuel + 1, '\\' :: esc :: rest =>
    match esc with
    | '"' => (parseStringRest fuel rest).map (fun (s, r) => ('"' :: s, r))
    | '\\' => (parseStringRest fuel rest).map (fun (s, r) => ('\\' :: s, r))
    | '/' => (parseStringRest fuel rest).map (fun (s, r) => ('/' :: s, r))
    | 'b' => (parseStringRest fuel rest).map (fun (s, r) => ('\x08' :: s, r))
    | 'f' => (parseStringRest fuel rest).map (fun (s, r) => ('\x0c' :: s, r))
    | 'n' => (parseStringRest fuel rest).map (fun (s, r) => ('\n' :: s, r))
    | 'r' => (parseStringRest fuel rest).map (fun (s, r) => ('\r' :: s, r))
    | 't' => (parseStringRest fuel rest).map (fun (s, r) => ('\t' :: s, r))
    | 'u' =>
      match rest with
      | a :: b :: c :: d :: rest' =>
        if isHexDigit a && isHexDigit b && isHexDigit c && isHexDigit d then
          let n := ((hexVal a * 16 + hexVal b) * 16 + hexVal c) * 16 + hexVal d
          (parseStringRest fuel rest').map (fun (s, r) => (Char.ofNat n :: s, r))
        else none
      | _ => none
    | _ => none
  | fuel + 1, c :: rest =>
    if c.toNat < 0x20 then none
    else (parseStringRest fuel rest).map (fun (s, r) => (c :: s, r))

def isDigit (c : Char) : Bool := '0' ≤ c && c ≤ '9'

/-- Consume a run of decimal digits, returning them and the rest. -/
def takeDigits : List Char → (List Char × List Char)
  | [] => ([], [])
  | c :: cs =>
    if isDigit c then
      let (ds, r) := takeDigits cs
      (c :: ds, r)
    else ([], c :: cs)

/-- Parse a JSON number starting at the head of the input (strict grammar:
optional minus, integer part without leading zeros, optional fraction,
optional exponent).  Returns the lexeme and the rest. -/
def parseNumber (cs : List Char) : Option (List Char × List Char) :=
  let (sign, cs1) :=
    match cs with
    | '-' :: r => (['-'], r)
    | _ => (([] : List Char), cs)
  match cs1 with
  | [] => none
  | c :: r =>
    if c = '0' then
      (parseNumTail r).map (fun (t, rest) => (sign ++ ['0'] ++ t, rest))
    else if isDigit c then
      let (ds, r1) := takeDigits r
      (parseNumTail r1).map (fun (t, rest) => (sign ++ (c :: ds) ++ t, rest))
    else none
where
  /-- Optional fraction and exponent after the integer part. -/
  parseNumTail (cs : List Char) : Option (List Char × List Char) :=
    let fracStep : Option (List Char × List Char) :=
      match cs with
      | '.' :: r =>
        match takeDigits r with
        | ([], _) => none
        | (ds, r1) => some ('.' :: ds, r1)
      | _ => some ([], cs)
    match fracStep with
    | none => none
    | some (frac, cs2) =>
      match cs2 with
      | 'e' :: r => (parseExp r).map (fun (e, rest) => (frac ++ ('e' :: e), rest))
      | 'E' :: r => (parseExp r).map (fun (e, rest) => (frac ++ ('E' :: e), rest))
      | _ => some (frac, cs2)
  /-- Exponent digits with optional sign. -/
  parseExp (cs : List Char) : Option (List Char × List Char) :=
    let (sgn, cs1) :=
      match cs with
      | '+' :: r => ((['+'] : List Char), r)
      | '-' :: r => ((['-'] : List Char), r)
      | _ => (([] : List Char), cs)
    match takeDigits cs1 with
    | ([], _) => none
    | (ds, r) => some (sgn ++ ds, r)

mutual

/-- Parse one JSON value at the head of the input (leading whitespace already
consumed), returning the value and the remaining input. -/
def parseValue (fuel : Nat) (cs : List Char) : Option (Json × List Char) :=
  match fuel with
  | 0 => none
  | fuel + 1 =>
    match cs with
    | 'n' :: 'u' :: 'l' :: 'l' :: rest => some (.null, rest)
    | 't' :: 'r' :: 'u' :: 'e' :: rest => some (.bool true, rest)
    | 'f' :: 'a' :: 'l' :: 's' :: 'e' :: rest => some (.bool false, rest)
    | '"' :: rest =>
      (parseStringRest (rest.length + 1) rest).map (fun (s, r) => (.str (String.mk s), r))
    | '[' :: rest =>
      match skipWs rest with
      | ']' :: r => some (.arr [], r)
      | cs1 => (parseElems fuel cs1).map (fun (es, r) => (.arr es, r))
    | c :: _ =>
      if c = '\x7b' then
        match cs with
        | _ :: rest =>
          match skipWs rest with
          | c1 :: r =>
            if c1 = '\x7d' then some (.obj [], r)
            else (parseMembers fuel (c1 :: r)).map (fun (fs, r') => (.obj fs, r'))
          | [] => none
        | [] => none
      else
        (parseNumber cs).map (fun (lx, r) => (.num (String.mk lx), r))
    | [] => none

/-- Parse the comma-separated elements of an array, up to and including the
closing bracket. -/
def parseElems (fuel : Nat) (cs : List Char) : Option (List Json × List Char) :=
  match fuel with
  | 0 => none
  | fuel + 1 =>
    match parseValue fuel (skipWs cs) with
    | none => none
    | some (v, rest) =>
      match skipWs rest with
      | ',' :: r => (parseElems fuel r).map (fun (es, r') => (v :: es, r'))
      | ']' :: r => some ([v], r)
      | _ => none

/-- Parse the comma-separated members of an object, up to and including the
closing brace. -/
def parseMembers (fuel : Nat) (cs : List Char) : Option (List (String × Json) × List Char) :=
  match fuel with
  | 0 => none
  | fuel + 1 =>
    match skipWs cs with
    | '"' :: rest =>
      match parseStringRest (rest.length + 1) rest with
      | none => none
      | some (key, r1) =>
        match skipWs r1 with
        | ':' :: r2 =>
          match parseValue fuel (skipWs r2) with
          | none => none
          | some (v, r3) =>
            match skipWs r3 with
            | ',' :: r4 => (parseMembers fuel r4).map (fun (fs, r') => ((String.mk key, v) :: fs, r'))
            | c :: r4 =>
              if c = '\x7d' then some ([(String.mk key, v)], r4) else none
            | [] => none
        | _ => none
    | _ => none

end

/-- Model of JavaScript `JSON.parse` applied to a complete document: parse a
single value and require the remainder to be whitespace. -/
def jsonParse (s : String) : Option Json :=
  match parseValue (2 * s.length + 2) (skipWs s.data) with
  | some (v, rest) => if skipWs rest = [] then some v else none
  | none => none

/-! ## Incremental JSON reconstruction

`parsePartialJson` lives in `src/src/renderer/utils/parsePartialJson.ts`,
which is not part of the provided sources; only its callers are. -/

/-- Scanner state for computing the closing characters of a JSON prefix:
whether we are inside a string (and just after a backslash), and the stack of
currently open brackets. -/
def openBrackets : List Char → Bool → Bool → List Char → List Char
  | [], inStr, _, stack => if inStr then '"' :: stack else stack
  | _ :: cs, true, true, stack => openBrackets cs true false stack
  | c :: cs, true, false, stack =>
    if c = '"' then openBrackets cs false false stack
    else if c = '\\' then openBrackets cs true true stack
    else openBrackets cs true false stack
  | c :: cs, false, _, stack =>
    if c = '"' then openBrackets cs true false stack
    else if c = '[' then openBrackets cs false false (']' :: stack)
    else if c = '\x7b' then openBrackets cs false false ('\x7d' :: stack)
    else if c = ']' || c = '\x7d' then
      match stack with
      | _ :: stack' => openBrackets cs false false stack'
      | [] => openBrackets cs false false []
    else openBrackets cs false false stack

/-- Close every unterminated string, array and object of a JSON prefix
(innermost first) and attempt a strict parse of the healed text. -/
def healedParse (cs : List Char) : Option Json :=
  jsonParse (String.mk (cs ++ openBrackets cs false false []))

/-- Try healed strict parses of ever shorter prefixes, longest first, so that
material after the last completable element is truncated away. -/
def bestEffortFrom : Nat → List Char → Option Json
  | 0, _ => none
  | k + 1, cs =>
    match healedParse (cs.take (k + 1)) with
    | some v => some v
    | none => bestEffortFrom k cs

/-- Modelled from the spec: the Incremental JSON Reconstructor
(`parsePartialJson`, `src/src/renderer/utils/parsePartialJson.ts`, absent
from the provided sources).  Per spec §4.4: attempt strict parsing first; on
failure, heal the prefix by closing unterminated strings, arrays and objects
in nesting order and retry; material that cannot be closed unambiguously is
truncated back to the last complete element (realised here by retrying ever
shorter healed prefixes).  Best-effort and total: `none` is a normal
outcome. -/
def parsePartialJson (s : String) : Option Json :=
  match jsonParse s with
  | some v => some v
  | none => bestEffortFrom s.data.length s.data

/-! ## `JSON.stringify(value, null, 2)` -/

def hexDigit (n : Nat) : Char :=
  if n < 10 then Char.ofNat ('0'.toNat + n) else Char.ofNat ('a'.toNat + n - 10)

def escapeJsonChar (c : Char) : String :=
  if c = '"' then "\\\""
  else if c = '\\' then "\\\\"
  else if c = '\n' then "\\n"
  else if c = '\t' then "\\t"
  else if c = '\r' then "\\r"
  else if c = '\x08' then "\\b"
  else if c = '\x0c' then "\\f"
  else if c.toNat < 0x20 then
    String.mk ['\\', 'u', '0', '0', hexDigit (c.toNat / 16), hexDigit (c.toNat % 16)]
  else String.singleton c

def quoteJsonString (s : String) : String :=
  "\"" ++ String.join (s.data.map escapeJsonChar) ++ "\""

def indentOf (n : Nat) : String := String.mk (List.replicate n ' ')

mutual

/-- Model of `JSON.stringify(value, null, 2)` at nesting depth `depth`. -/
def stringifyVal (depth : Nat) : Json → String
  | .null => "null"
  | .bool true => "true"
  | .bool false => "false"
  | .num lx => lx
  | .str s => quoteJsonString s
  | .arr [] => "[]"
  | .arr (e :: es) =>
    "[\n" ++ indentOf (2 * (depth + 1)) ++ stringifyItems (depth + 1) e es ++
      "\n" ++ indentOf (2 * depth) ++ "]"
  | .obj [] => "\x7b\x7d"
  | .obj ((k, v) :: fs) =>
    "\x7b\n" ++ indentOf (2 * (depth + 1)) ++ stringifyFields (depth + 1) k v fs ++
      "\n" ++ indentOf (2 * depth) ++ "\x7d"
termination_by j => sizeOf j
decreasing_by all_goals (simp_wf; try omega)

def stringifyItems (depth : Nat) (e : Json) : List Json → String
  | [] => stringifyVal depth e
  | e' :: es =>
    stringifyVal depth e ++ ",\n" ++ indentOf (2 * depth) ++ stringifyItems depth e' es
termination_by es => 1 + sizeOf e + sizeOf es
decreasing_by all_goals (simp_wf; try omega)

def stringifyFields (depth : Nat) (k : String) (v : Json) : List (String × Json) → String
  | [] => quoteJsonString k ++ ": " ++ stringifyVal depth v
  | (k', v') :: fs =>
    quoteJsonString k ++ ": " ++ stringifyVal depth v ++ ",\n" ++
      indentOf (2 * depth) ++ stringifyFields depth k' v' fs
termination_by fs => 1 + sizeOf v + sizeOf fs
decreasing_by all_goals (simp_wf; try omega)

end

def jsonStringify2 (v : Json) : String := stringifyVal 0 v

/-! ## Association lists

JavaScript `Map`s (`streamIndexToToolId`, `toolResultIndexToId`,
`childToolToParent`) modelled as insertion-ordered association lists. -/

def getA [BEq α] : List (α × β) → α → Option β
  | [], _ => none
  | p :: rest, k => if p.1 == k then some p.2 else getA rest k

def hasA [BEq α] (m : List (α × β)) (k : α) : Bool :=
  (getA m k).isSome

/-- `Map.set`: replace the value in place if the key is bound, else append.
(A JavaScript `Map` never holds duplicate keys, so replacing the first
binding is exact.) -/
def setA [BEq α] : List (α × β) → α → β → List (α × β)
  | [], k, v => [(k, v)]
  | p :: rest, k, v => if p.1 == k then (k, v) :: rest else p :: setA rest k v

/-- `Map.delete`. -/
def delA [BEq α] (m : List (α × β)) (k : α) : List (α × β) :=
  m.filter (fun p => !(p.1 == k))

/-! ## Data model (`agent-session.ts` lines 11–114) -/

inductive SessionState where
  | idle
  | running
  | error
deriving DecidableEq, Repr

inductive Role where
  | user
  | assistant
deriving DecidableEq, Repr

structure SubagentToolCall where
  id : String
  name : String
  input : Json
  streamIndex : Option Nat := none
  inputJson : Option String := none
  parsedInput : Option ToolInput := none
  result : Option String := none
  isLoading : Option Bool := none
  isError : Option Bool := none
deriving Repr

structure ToolUseState where
  id : String
  name : String
  input : Json
  streamIndex : Nat
  inputJson : Option String := none
  parsedInput : Option ToolInput := none
  result : Option String := none
  isLoading : Option Bool := none
  isError : Option Bool := none
  subagentCalls : Option (List SubagentToolCall) := none
deriving Repr

/-- The `ContentBlock` tagged record of the source, as a union; the source
always populates exactly the fields of the written tag.  `isComplete` is a
plain `Bool` since the source only ever tests its truthiness. -/
inductive ContentBlock where
  | text (text : String)
  | toolUse (tool : ToolUseState)
  | thinking (thinking : String) (thinkingStartedAt : Option Nat)
      (thinkingDurationMs : Option Nat) (thinkingStreamIndex : Option Nat)
      (isComplete : Bool)
deriving Repr

inductive MsgContent where
  | str (s : String)
  | blocks (bs : List ContentBlock)
deriving Repr

/-- `MessageWire` (attachments omitted: no claim concerns them); timestamps
are abstract `Nat` clock readings. -/
structure MessageWire where
  id : String
  role : Role
  content : MsgContent
  timestamp : Nat
deriving Repr

/-- The `Session` class state.  `querySession` is abstracted to the Boolean
`hasQuerySession` (null vs live handle); log-file plumbing and the cached
init snapshot are omitted (no claim concerns them); the message queue keeps
the queued user texts. -/
structure Session where
  id : String
  name : String
  createdAt : Nat
  lastMessageAt : Nat
  sessionState : SessionState := .idle
  hasQuerySession : Bool := false
  isProcessing : Bool := false
  shouldAbortSession : Bool := false
  isInterruptingResponse : Bool := false
  isStreamingMessage : Bool := false
  messages : List MessageWire := []
  streamIndexToToolId : List (Nat × String) := []
  toolResultIndexToId : List (Nat × String) := []
  childToolToParent : List (String × String) := []
  messageSequence : Nat := 0
  messageQueue : List String := []
deriving Repr

/-- The `Session` constructor. -/
def mkSession (id : String) (now : Nat) : Session :=
  { id := id, name := "Session", createdAt := now, lastMessageAt := now }

/-- Broadcast-boundary notifications relevant to the claims. -/
inductive Note where
  | status (sessionState : SessionState)
  | messageReplay (id : String) (content : String)
  | sessionUpdated (name : String)
deriving DecidableEq, Repr

/-! ## Session methods (`agent-session.ts` lines 116–234) -/

/-- `Session.autoGenerateName`: first 30 characters, cut at the first `。` or
newline, with an ellipsis when the full text exceeds 30 characters. -/
def autoGenerateName (firstMessage : String) : String :=
  let preview :=
    String.mk ((firstMessage.data.take 30).takeWhile (fun c => !(c = '。' || c = '\n')))
  preview ++ (if firstMessage.data.length > 30 then "..." else "")

/-- `Session.updateNameFromFirstMessage`. -/
def updateNameFromFirstMessage (s : Session) : Session :=
  match s.messages with
  | [m] =>
    if m.role = .user then
      let content := match m.content with | .str c => c | .blocks _ => ""
      { s with name := autoGenerateName content }
    else s
  | _ => s

/-- `Session.setSessionState`: no-op (and no broadcast) when unchanged. -/
def setSessionState (s : Session) (nextState : SessionState) : Session × List Note :=
  if s.sessionState = nextState then (s, [])
  else ({ s with sessionState := nextState }, [.status nextState])

/-- Replace the last element of a list, if any. -/
def modifyLastList (f : α → α) : List α → List α
  | [] => []
  | [a] => [f a]
  | a :: rest => a :: modifyLastList f rest

def modifyLast (f : MessageWire → MessageWire) (s : Session) : Session :=
  { s with messages := modifyLastList f s.messages }

/-- `Session.ensureAssistantMessage`: reuse the last message while it is an
assistant message of a live streaming turn, else append a fresh one (string
content) and mark streaming.  The target is always the last message. -/
def ensureAssistantMessage (now : Nat) (s : Session) : Session :=
  match s.messages.getLast? with
  | some last =>
    if last.role = .assistant ∧ s.isStreamingMessage = true then s
    else
      { s with
        messages := s.messages ++ [⟨toString s.messageSequence, .assistant, .str "", now⟩],
        messageSequence := s.messageSequence + 1,
        isStreamingMessage := true }
  | none =>
    { s with
      messages := s.messages ++ [⟨toString s.messageSequence, .assistant, .str "", now⟩],
      messageSequence := s.messageSequence + 1,
      isStreamingMessage := true }

/-- `Session.ensureContentArray` applied to a message: promote string content
to a block list (a nonempty string becomes one text block). -/
def promoteContent (m : MessageWire) : MessageWire :=
  match m.content with
  | .str c => { m with content := .blocks (if c = "" then [] else [.text c]) }
  | .blocks _ => m

/-- `Session.appendTextChunk`. -/
def appendTextChunk (now : Nat) (chunk : String) (s : Session) : Session :=
  let s := ensureAssistantMessage now s
  modifyLast (fun m =>
    match m.content with
    | .str c => { m with content := .str (c ++ chunk) }
    | .blocks bs =>
      match bs.getLast? with
      | some (.text t) => { m with content := .blocks (bs.dropLast ++ [.text (t ++ chunk)]) }
      | _ => { m with content := .blocks (bs ++ [.text chunk]) }) s

def toolOf? : ContentBlock → Option ToolUseState
  | .toolUse tb => some tb
  | _ => none

/-- `contentArray.find` over tool blocks: first tool block satisfying the
selector. -/
def findFirstToolWhere (sel : ToolUseState → Bool) : List ContentBlock → Option ToolUseState
  | [] => none
  | b :: bs =>
    match toolOf? b with
    | some tb => if sel tb then some tb else findFirstToolWhere sel bs
    | none => findFirstToolWhere sel bs

/-- `content.find(block => block.type === 'tool_use' && block.tool?.id === id)`. -/
def findToolInBlocks (bs : List ContentBlock) (tid : String) : Option ToolUseState :=
  findFirstToolWhere (fun tb => tb.id == tid) bs

def msgTool? (m : MessageWire) (tid : String) : Option ToolUseState :=
  if m.role = .assistant then
    match m.content with
    | .blocks bs => findToolInBlocks bs tid
    | .str _ => none
  else none

def findToolRev : List MessageWire → String → Option ToolUseState
  | [], _ => none
  | m :: rest, tid =>
    match msgTool? m tid with
    | some tb => some tb
    | none => findToolRev rest tid

/-- `Session.findToolBlockById`: scan messages from the newest backwards; in
each assistant message with block content take the first matching tool
block. -/
def findToolBlockById (s : Session) (tid : String) : Option ToolUseState :=
  findToolRev s.messages.reverse tid

/-- Mutate (in place) the first tool block satisfying `sel` in a block
list — the model of TS `find` followed by mutation of the found record. -/
def mapFirstToolWhere (sel : ToolUseState → Bool) (f : ToolUseState → ToolUseState) :
    List ContentBlock → List ContentBlock
  | [] => []
  | b :: bs =>
    match b with
    | .toolUse tb => if sel tb then .toolUse (f tb) :: bs else b :: mapFirstToolWhere sel f bs
    | _ => b :: mapFirstToolWhere sel f bs

def updateToolRev (tid : String) (f : ToolUseState → ToolUseState) :
    List MessageWire → List MessageWire
  | [] => []
  | m :: rest =>
    match msgTool? m tid with
    | some _ =>
      (match m.content with
       | .blocks bs => { m with content := .blocks (mapFirstToolWhere (fun tb => tb.id == tid) f bs) }
       | .str _ => m) :: rest
    | none => m :: updateToolRev tid f rest

/-- Mutation through the record returned by `findToolBlockById`: update the
block that the search locates, leaving everything else in place. -/
def updateToolById (s : Session) (tid : String) (f : ToolUseState → ToolUseState) : Session :=
  { s with messages := (updateToolRev tid f s.messages.reverse).reverse }

/-- Mutate the first subagent call with the given id (TS `find` + mutation). -/
def mapFirstCall (cid : String) (f : SubagentToolCall → SubagentToolCall) :
    List SubagentToolCall → List SubagentToolCall
  | [] => []
  | c :: cs => if c.id = cid then f c :: cs else c :: mapFirstCall cid f cs

/-! ## Streaming handlers (`agent-session.ts` lines 482–886) -/

/-- `thinkingStartedAt ? Date.now() - thinkingStartedAt : undefined` (note
the JavaScript truthiness: a zero start time yields no duration). -/
def thinkDuration (now : Nat) (startedAt : Option Nat) : Option Nat :=
  match startedAt with
  | some t0 => if t0 = 0 then none else some (now - t0)
  | none => none

/-- `handleThinkingStart`. -/
def handleThinkingStart (now : Nat) (index : Nat) (s : Session) : Session :=
  let s := ensureAssistantMessage now s
  modifyLast (fun m =>
    let m := promoteContent m
    match m.content with
    | .blocks bs =>
      { m with content := .blocks (bs ++ [.thinking "" (some now) none (some index) false]) }
    | .str _ => m) s

/-- Append a delta to the first incomplete thinking block with the given
stream index (TS `find` + mutation). -/
def appendThinkingDelta (index : Nat) (delta : String) : List ContentBlock → List ContentBlock
  | [] => []
  | .thinking th st du si comp :: bs =>
    if si = some index ∧ comp = false then .thinking (th ++ delta) st du si comp :: bs
    else .thinking th st du si comp :: appendThinkingDelta index delta bs
  | b :: bs => b :: appendThinkingDelta index delta bs

/-- `handleThinkingChunk`: the delta is dropped when no matching incomplete
thinking block exists. -/
def handleThinkingChunk (now : Nat) (index : Nat) (delta : String) (s : Session) : Session :=
  let s := ensureAssistantMessage now s
  modifyLast (fun m =>
    let m := promoteContent m
    match m.content with
    | .blocks bs => { m with content := .blocks (appendThinkingDelta index delta bs) }
    | .str _ => m) s

/-- `handleToolUseStart`: push a new top-level tool block with an empty
argument buffer. -/
def handleToolUseStart (now : Nat) (id name : String) (input : Json) (index : Nat)
    (s : Session) : Session :=
  let s := ensureAssistantMessage now s
  modifyLast (fun m =>
    let m := promoteContent m
    match m.content with
    | .blocks bs =>
      { m with content := .blocks (bs ++
          [.toolUse { id := id, name := name, input := input, streamIndex := index,
                      inputJson := some "" }]) }
    | .str _ => m) s

/-- The tool payload handed to `handleSubagentToolUseStart` (the
assistant-message variant carries no stream index). -/
structure ToolPayload where
  id : String
  name : String
  input : Json
  streamIndex : Option Nat := none
deriving Repr

/-- `handleSubagentToolUseStart`: record child→parent, then backfill an
existing subagent call of the same id or push a fresh one; a start whose
parent record does not exist is dropped entirely. -/
def handleSubagentToolUseStart (parentToolUseId : String) (tool : ToolPayload)
    (s : Session) : Session :=
  match findToolBlockById s parentToolUseId with
  | none => s
  | some pt =>
    let s := { s with childToolToParent := setA s.childToolToParent tool.id parentToolUseId }
    match (pt.subagentCalls.getD []).find? (fun c => c.id == tool.id) with
    | some _ =>
      updateToolById s parentToolUseId (fun t =>
        { t with subagentCalls := some (mapFirstCall tool.id
            (fun c => { c with name := tool.name, input := tool.input,
                               streamIndex := tool.streamIndex })
            (t.subagentCalls.getD [])) })
    | none =>
      updateToolById s parentToolUseId (fun t =>
        { t with subagentCalls := some ((t.subagentCalls.getD []) ++
            [{ id := tool.id, name := tool.name, input := tool.input,
               streamIndex := tool.streamIndex,
               inputJson := some (jsonStringify2 tool.input),
               isLoading := some true }]) })

/-- `ensureSubagentToolPlaceholder`: synthesize a placeholder subagent call
(generic name, empty input) so an early tool result is not dropped. -/
def ensureSubagentToolPlaceholder (parentToolUseId toolUseId : String) (s : Session) : Session :=
  match findToolBlockById s parentToolUseId with
  | none => s
  | some pt =>
    match (pt.subagentCalls.getD []).find? (fun c => c.id == toolUseId) with
    | some _ => s
    | none =>
      let s := { s with childToolToParent := setA s.childToolToParent toolUseId parentToolUseId }
      updateToolById s parentToolUseId (fun t =>
        { t with subagentCalls := some ((t.subagentCalls.getD []) ++
            [{ id := toolUseId, name := "Tool", input := .obj [],
               inputJson := some "\x7b\x7d", isLoading := some true }]) })

/-- Append a delta to a tool's raw-argument buffer and re-parse through the
incremental reconstructor; a failed parse leaves the cached value. -/
def applyInputDelta (delta : String) (tb : ToolUseState) : ToolUseState :=
  let newInputJson := tb.inputJson.getD "" ++ delta
  let tb := { tb with inputJson := some newInputJson }
  match parsePartialJson newInputJson with
  | some v => { tb with parsedInput := some v }
  | none => tb

/-- `handleToolInputDelta` (the `index` argument is unused in the source as
well; routing is purely by `toolId`). -/
def handleToolInputDelta (now : Nat) (_index : Nat) (toolId : String) (delta : String)
    (s : Session) : Session :=
  let s := ensureAssistantMessage now s
  modifyLast (fun m =>
    let m := promoteContent m
    match m.content with
    | .blocks bs =>
      { m with content := .blocks (mapFirstToolWhere (fun tb => tb.id == toolId)
          (applyInputDelta delta) bs) }
    | .str _ => m) s

/-- `applyInputDelta` for a subagent call. -/
def applyCallInputDelta (delta : String) (c : SubagentToolCall) : SubagentToolCall :=
  let newInputJson := c.inputJson.getD "" ++ delta
  let c := { c with inputJson := some newInputJson }
  match parsePartialJson newInputJson with
  | some v => { c with parsedInput := some v }
  | none => c

/-- `handleSubagentToolInputDelta`. -/
def handleSubagentToolInputDelta (parentToolUseId toolId delta : String) (s : Session) : Session :=
  match findToolBlockById s parentToolUseId with
  | none => s
  | some pt =>
    match pt.subagentCalls with
    | none => s
    | some calls =>
      match calls.find? (fun c => c.id == toolId) with
      | none => s
      | some _ =>
        updateToolById s parentToolUseId (fun t =>
          { t with subagentCalls := some (mapFirstCall toolId (applyCallInputDelta delta)
              (t.subagentCalls.getD [])) })

/-- `finalizeSubagentToolInput`: strict parse of the accumulated buffer,
falling back to the incremental reconstructor. -/
def finalizeSubagentToolInput (parentToolUseId toolId : String) (s : Session) : Session :=
  match findToolBlockById s parentToolUseId with
  | none => s
  | some pt =>
    match pt.subagentCalls with
    | none => s
    | some calls =>
      match calls.find? (fun c => c.id == toolId) with
      | none => s
      | some c =>
        match c.inputJson with
        | none => s
        | some j =>
          if j = "" then s
          else
            let newParsed : Option ToolInput :=
              match jsonParse j with
              | some v => some v
              | none =>
                match parsePartialJson j with
                | some v => some v
                | none => c.parsedInput
            updateToolById s parentToolUseId (fun t =>
              { t with subagentCalls := some (mapFirstCall toolId
                  (fun c' => { c' with parsedInput := newParsed })
                  (t.subagentCalls.getD [])) })

/-- Freeze a tool's structured input at segment stop: strict parse of the
buffer first, incremental reconstructor as fallback, previous value if both
fail; a missing or empty buffer changes nothing. -/
def freezeToolInput (tb : ToolUseState) : ToolUseState :=
  match tb.inputJson with
  | none => tb
  | some j =>
    if j = "" then tb
    else
      match jsonParse j with
      | some v => { tb with parsedInput := some v }
      | none =>
        match parsePartialJson j with
        | some v => { tb with parsedInput := some v }
        | none => tb

/-- Is there an incomplete thinking block with this stream index? -/
def hasOpenThinkingAt (index : Nat) (bs : List ContentBlock) : Bool :=
  bs.any (fun b =>
    match b with
    | .thinking _ _ _ si comp => si == some index && !comp
    | _ => false)

/-- Complete the first incomplete thinking block with this stream index,
recording its elapsed duration. -/
def completeFirstOpenThinking (now : Nat) (index : Nat) : List ContentBlock → List ContentBlock
  | [] => []
  | .thinking th st du si comp :: bs =>
    if si = some index ∧ comp = false then
      .thinking th st (thinkDuration now st) si true :: bs
    else .thinking th st du si comp :: completeFirstOpenThinking now index bs
  | b :: bs => b :: completeFirstOpenThinking now index bs

/-- The tool-block selector used at segment stop: by id when one is
supplied, else by stream index. -/
def stopToolSel (index : Nat) (toolId : Option String) : ToolUseState → Bool :=
  match toolId with
  | some tid => fun tb => tb.id == tid
  | none => fun tb => tb.streamIndex == index

/-- `handleContentBlockStop`: complete a matching open thinking block if one
exists, else locate the tool block (by id when one is supplied, else by
stream index) and freeze its structured input. -/
def handleContentBlockStop (now : Nat) (index : Nat) (toolId : Option String)
    (s : Session) : Session :=
  let s := ensureAssistantMessage now s
  modifyLast (fun m =>
    let m := promoteContent m
    match m.content with
    | .blocks bs =>
      if hasOpenThinkingAt index bs then
        { m with content := .blocks (completeFirstOpenThinking now index bs) }
      else
        { m with content := .blocks (mapFirstToolWhere (stopToolSel index toolId)
            freezeToolInput bs) }
    | .str _ => m) s

/-- `setToolResult`. -/
def setToolResult (toolUseId content : String) (isError : Option Bool) (s : Session) : Session :=
  match findToolBlockById s toolUseId with
  | none => s
  | some _ =>
    updateToolById s toolUseId (fun t =>
      let t := { t with result := some content }
      match isError with
      | some b => { t with isError := some b }
      | none => t)

/-- `getToolResult`. -/
def getToolResult (s : Session) (toolUseId : String) : Option String :=
  (findToolBlockById s toolUseId).bind (·.result)

/-- `appendToolResultContent` (returns the new accumulated text). -/
def appendToolResultContent (toolUseId content : String) (isError : Option Bool)
    (s : Session) : Session × String :=
  let existing := getToolResult s toolUseId
  let next :=
    match existing with
    | some e => if e = "" then content else e ++ "\n" ++ content
    | none => content
  (setToolResult toolUseId next isError s, next)

/-- `handleSubagentToolResultStart` (`none` models the `false` return). -/
def handleSubagentToolResultStart (toolUseId content : String) (isError : Bool)
    (s : Session) : Option Session :=
  match getA s.childToolToParent toolUseId with
  | none => none
  | some parentId =>
    match findToolBlockById s parentId with
    | none => none
    | some pt =>
      match pt.subagentCalls with
      | none => none
      | some calls =>
        match calls.find? (fun c => c.id == toolUseId) with
        | none => none
        | some _ =>
          some (updateToolById s parentId (fun t =>
            { t with subagentCalls := some (mapFirstCall toolUseId
                (fun c => { c with result := some content, isError := some isError,
                                   isLoading := some true })
                (t.subagentCalls.getD [])) }))

/-- `handleSubagentToolResultComplete`. -/
def handleSubagentToolResultComplete (toolUseId content : String) (isError : Option Bool)
    (s : Session) : Option Session :=
  match getA s.childToolToParent toolUseId with
  | none => none
  | some parentId =>
    match findToolBlockById s parentId with
    | none => none
    | some pt =>
      match pt.subagentCalls with
      | none => none
      | some calls =>
        match calls.find? (fun c => c.id == toolUseId) with
        | none => none
        | some _ =>
          some (updateToolById s parentId (fun t =>
            { t with subagentCalls := some (mapFirstCall toolUseId
                (fun c =>
                  let c := { c with result := some content }
                  let c := match isError with
                    | some b => { c with isError := some b }
                    | none => c
                  { c with isLoading := some false })
                (t.subagentCalls.getD [])) }))

/-- `appendSubagentToolResultDelta`. -/
def appendSubagentToolResultDelta (toolUseId delta : String) (s : Session) : Option Session :=
  match getA s.childToolToParent toolUseId with
  | none => none
  | some parentId =>
    match findToolBlockById s parentId with
    | none => none
    | some pt =>
      match pt.subagentCalls with
      | none => none
      | some calls =>
        match calls.find? (fun c => c.id == toolUseId) with
        | none => none
        | some _ =>
          some (updateToolById s parentId (fun t =>
            { t with subagentCalls := some (mapFirstCall toolUseId
                (fun c => { c with result := some (c.result.getD "" ++ delta),
                                   isLoading := some true })
                (t.subagentCalls.getD [])) }))

/-- `finalizeSubagentToolResult`. -/
def finalizeSubagentToolResult (toolUseId : String) (s : Session) : Option Session :=
  match getA s.childToolToParent toolUseId with
  | none => none
  | some parentId =>
    match findToolBlockById s parentId with
    | none => none
    | some pt =>
      match pt.subagentCalls with
      | none => none
      | some calls =>
        match calls.find? (fun c => c.id == toolUseId) with
        | none => none
        | some _ =>
          some (updateToolById s parentId (fun t =>
            { t with subagentCalls := some (mapFirstCall toolUseId
                (fun c => { c with isLoading := some false })
                (t.subagentCalls.getD [])) }))

/-- `getSubagentToolResult`. -/
def getSubagentToolResult (s : Session) (toolUseId : String) : Option String :=
  match getA s.childToolToParent toolUseId with
  | none => none
  | some parentId =>
    match findToolBlockById s parentId with
    | none => none
    | some pt =>
      match pt.subagentCalls with
      | none => none
      | some calls => (calls.find? (fun c => c.id == toolUseId)).bind (·.result)

/-- `appendToolResultDelta`: subagent routing first, then top-level. -/
def appendToolResultDelta (toolUseId delta : String) (s : Session) : Session :=
  match appendSubagentToolResultDelta toolUseId delta s with
  | some s' => s'
  | none =>
    match findToolBlockById s toolUseId with
    | none => s
    | some _ => updateToolById s toolUseId (fun t =>
        { t with result := some (t.result.getD "" ++ delta) })

/-- `handleToolResultStart`. -/
def handleToolResultStart (toolUseId content : String) (isError : Bool) (s : Session) : Session :=
  match handleSubagentToolResultStart toolUseId content isError s with
  | some s' => s'
  | none => setToolResult toolUseId content (some isError) s

/-- `handleToolResultComplete`. -/
def handleToolResultComplete (toolUseId content : String) (isError : Option Bool)
    (s : Session) : Session :=
  match handleSubagentToolResultComplete toolUseId content isError s with
  | some s' => s'
  | none => setToolResult toolUseId content isError s

/-- `handleMessageComplete` (terminal result event). -/
def handleMessageComplete (s : Session) : Session :=
  (setSessionState { s with isStreamingMessage := false } .idle).1

/-- Force-complete an incomplete thinking block (used on stop/interrupt). -/
def forceCompleteThinking (now : Nat) : ContentBlock → ContentBlock
  | .thinking th st du si comp =>
    if comp then .thinking th st du si comp
    else .thinking th st (thinkDuration now st) si true
  | b => b

/-- Lines 860–874 of `handleMessageStopped`: force-complete the open
thinking blocks of the last message when it is an assistant message with
segmented content. -/
def stoppedBody (now : Nat) (s : Session) : Session :=
  match s.messages.getLast? with
  | none => s
  | some last =>
    if last.role = .assistant then
      match last.content with
      | .blocks _ =>
        modifyLast (fun m =>
          match m.content with
          | .blocks bs => { m with content := .blocks (bs.map (forceCompleteThinking now)) }
          | .str _ => m) s
      | .str _ => s
    else s

/-- `handleMessageStopped`: transition to idle and force-complete the open
thinking blocks of the last message (only) when it is an assistant message
with segmented content. -/
def handleMessageStopped (now : Nat) (s : Session) : Session :=
  stoppedBody now ((setSessionState { s with isStreamingMessage := false } .idle).1)

/-- `handleMessageError`: transition to idle and append a synthetic error
turn (the caller then sets the error state). -/
def handleMessageError (now : Nat) (error : String) (s : Session) : Session :=
  let s := (setSessionState { s with isStreamingMessage := false } .idle).1
  { s with
    messages := s.messages ++
      [⟨toString s.messageSequence, .assistant, .str ("Error: " ++ error), now⟩],
    messageSequence := s.messageSequence + 1 }

/-! ## Event reconciliation (`startStreamingSession` dispatch, lines 958–1345)

One runtime event as reconciled by the driving loop.  Stream events carry
the `content_block_*` payloads; `msgSubagentToolUse`, `msgAssistantText` and
`msgToolResultComplete` are the tool-use / text / `tool_result` blocks of
complete `assistant` / `user` SDK messages.  `toolResultStart` carries the
already-stringified block content (`contentStr` in the source). -/

inductive StreamEv where
  | textDelta (delta : String)
  | thinkingDelta (index : Nat) (delta : String)
  | inputJsonDelta (index : Nat) (delta : String)
  | thinkingStart (index : Nat)
  | toolUseStart (index : Nat) (id name : String) (input : Json)
  | toolResultStart (index : Nat) (toolUseId content : String) (isError : Bool)
  | blockStop (index : Nat)
  | msgSubagentToolUse (id name : String) (input : Json)
  | msgAssistantText (text : String)
  | msgToolResultComplete (toolUseId content : String) (isError : Option Bool)
deriving Repr

/-- An SDK message event with its optional `parent_tool_use_id` tag. -/
structure Ev where
  parentToolUseId : Option String := none
  ev : StreamEv
deriving Repr

/-- JavaScript truthiness of an optional string id: `null`/`undefined` and
the empty string are falsy. -/
def truthyId : Option String → Option String
  | some s => if s = "" then none else some s
  | none => none

/-- Reconcile one event into the session state — the classification switch
of the driving loop (`startStreamingSession`). -/
def processEvent (now : Nat) (e : Ev) (s : Session) : Session :=
  match e.ev with
  | .textDelta delta =>
    match truthyId e.parentToolUseId with
    | some p => appendToolResultDelta p delta s
    | none => appendTextChunk now delta s
  | .thinkingDelta index delta => handleThinkingChunk now index delta s
  | .inputJsonDelta index delta =>
    let toolId := (getA s.streamIndexToToolId index).getD ""
    match truthyId e.parentToolUseId with
    | some p => handleSubagentToolInputDelta p toolId delta s
    | none => handleToolInputDelta now index toolId delta s
  | .thinkingStart index => handleThinkingStart now index s
  | .toolUseStart index id name input =>
    let s := { s with streamIndexToToolId := setA s.streamIndexToToolId index id }
    match truthyId e.parentToolUseId with
    | some p => handleSubagentToolUseStart p ⟨id, name, input, some index⟩ s
    | none => handleToolUseStart now id name input index s
  | .toolResultStart index toolUseId content isError =>
    let s := { s with toolResultIndexToId := setA s.toolResultIndexToId index toolUseId }
    if content = "" then s
    else
      let parentToolUseId := (getA s.childToolToParent toolUseId).orElse
        (fun _ => e.parentToolUseId)
      match truthyId parentToolUseId with
      | some p =>
        let s := if hasA s.childToolToParent toolUseId then s
                 else ensureSubagentToolPlaceholder p toolUseId s
        handleToolResultStart toolUseId content isError s
      | none => handleToolResultStart toolUseId content isError s
  | .blockStop index =>
    let toolId := getA s.streamIndexToToolId index
    match truthyId e.parentToolUseId with
    | some p =>
      let s :=
        match truthyId toolId with
        | some tid => finalizeSubagentToolInput p tid s
        | none => s
      match getA s.toolResultIndexToId index with
      | some toolResultId =>
        let s := { s with toolResultIndexToId := delA s.toolResultIndexToId index }
        match finalizeSubagentToolResult toolResultId s with
        | some s' => s'
        | none => s
      | none => s
    | none => handleContentBlockStop now index (truthyId toolId) s
  | .msgSubagentToolUse id name input =>
    match truthyId e.parentToolUseId with
    | some p => handleSubagentToolUseStart p ⟨id, name, input, none⟩ s
    | none => s
  | .msgAssistantText text =>
    match truthyId e.parentToolUseId with
    | some p => if text = "" then s else (appendToolResultContent p text none s).1
    | none => s
  | .msgToolResultComplete toolUseId content isError =>
    let parentToolUseId := (getA s.childToolToParent toolUseId).orElse
      (fun _ => e.parentToolUseId)
    match truthyId parentToolUseId with
    | some p =>
      let s := if hasA s.childToolToParent toolUseId then s
               else ensureSubagentToolPlaceholder p toolUseId s
      handleToolResultComplete toolUseId content isError s
    | none => handleToolResultComplete toolUseId content isError s

def processEvents (now : Nat) (evs : List Ev) (s : Session) : Session :=
  evs.foldl (fun s e => processEvent now e s) s

/-! ## Session registry (`SessionManager`, lines 236–330) -/

structure ManagerState where
  sessions : List (String × Session) := []
  activeSessionId : Option String := none
  agentDir : String := ""
deriving Repr

def getSessionM (mgr : ManagerState) (id : String) : Option Session :=
  getA mgr.sessions id

def getActiveSession (mgr : ManagerState) : Option Session :=
  match truthyId mgr.activeSessionId with
  | none => none
  | some id => getA mgr.sessions id

/-- `SessionManager.setActiveSession`. -/
def setActiveSession (mgr : ManagerState) (id : String) : ManagerState × Bool :=
  match getA mgr.sessions id with
  | none => (mgr, false)
  | some _ => ({ mgr with activeSessionId := some id }, true)

/-- `SessionManager.createSession` (the fresh UUID is a parameter). -/
def createSessionM (mgr : ManagerState) (id : String) (now : Nat) : ManagerState × Session :=
  let session := mkSession id now
  let mgr := { mgr with sessions := setA mgr.sessions id session }
  let mgr :=
    if truthyId mgr.activeSessionId = none then { mgr with activeSessionId := some id }
    else mgr
  (mgr, session)

/-- Lines 305–312 of `deleteSession`: when the deleted session was active,
activate the first remaining session in insertion order, or clear the
active pointer when none remains. -/
def reselectActive (mgr : ManagerState) (id : String) : ManagerState :=
  if mgr.activeSessionId = some id then
    match mgr.sessions with
    | [] => { mgr with activeSessionId := none }
    | (rid, _) :: _ => (setActiveSession mgr rid).1
  else mgr

/-- `SessionManager.deleteSession`: refuse for a running session; otherwise
remove it and, when it was active, activate the first remaining session in
insertion order or clear the active pointer. -/
def deleteSession (mgr : ManagerState) (id : String) : ManagerState × Bool :=
  match getA mgr.sessions id with
  | none => (mgr, false)
  | some session =>
    if session.sessionState = .running then (mgr, false)
    else (reselectActive { mgr with sessions := delA mgr.sessions id } id, true)

def putSession (mgr : ManagerState) (s : Session) : ManagerState :=
  { mgr with sessions := setA mgr.sessions s.id s }

def getOrCreateActiveSession (mgr : ManagerState) (freshId : String) (now : Nat) :
    ManagerState × Session :=
  match getActiveSession mgr with
  | some s => (mgr, s)
  | none => createSessionM mgr freshId now

/-! ## Enqueue and interrupt (lines 1460–1534) -/

/-- The synchronous prefix of `startStreamingSession` (up to opening the
runtime stream): guard against a second driving loop, reset the abort flag,
clear the stream-index map, transition to running, take the runtime
handle. -/
def startStreamingStart (session : Session) : Session × List Note :=
  if session.isProcessing = true ∨ session.hasQuerySession = true then (session, [])
  else
    let session := { session with shouldAbortSession := false, isProcessing := true,
                                  streamIndexToToolId := [] }
    let (session, n1) := setSessionState session .running
    ({ session with hasQuerySession := true }, n1)

/-- `enqueueUserMessage` lines 1477–1511, after the session has been
resolved and the text trimmed non-empty. -/
def enqueueCore (now : Nat) (trimmed : String) (session : Session) : Session × List Note :=
  let session := { session with lastMessageAt := now }
  let (session, n1) := setSessionState session .running
  let userMessage : MessageWire := ⟨toString session.messageSequence, .user, .str trimmed, now⟩
  let session := { session with
    messages := session.messages ++ [userMessage],
    messageSequence := session.messageSequence + 1 }
  let n2 := [Note.messageReplay userMessage.id trimmed]
  let session := updateNameFromFirstMessage session
  let n3 := if session.messages.length = 1 then [Note.sessionUpdated session.name] else []
  let (session, n4) :=
    if session.isProcessing = true ∨ session.hasQuerySession = true then (session, [])
    else startStreamingStart session
  let session := { session with messageQueue := session.messageQueue ++ [trimmed] }
  (session, n1 ++ n2 ++ n3 ++ n4)

/-- `String.prototype.trim`: strip whitespace from both ends (modelled over
the character list so that it evaluates inside the kernel). -/
def jsTrim (s : String) : String :=
  String.mk (((s.data.dropWhile Char.isWhitespace).reverse.dropWhile
    Char.isWhitespace).reverse)

/-- `enqueueUserMessage`: empty-after-trim text returns immediately; an
unknown explicit session id throws; otherwise the turn is enqueued on the
resolved (or freshly created) session. -/
def enqueueUserMessage (now : Nat) (text : String) (sessionId : Option String)
    (freshId : String) (mgr : ManagerState) : Except String (ManagerState × List Note) :=
  let trimmed := jsTrim text
  if trimmed = "" then .ok (mgr, [])
  else
    match truthyId sessionId with
    | some sid =>
      match getSessionM mgr sid with
      | none => .error ("Session not found: " ++ sid)
      | some session =>
        let (session, notes) := enqueueCore now trimmed session
        .ok (putSession mgr session, notes)
    | none =>
      let (mgr, session) := getOrCreateActiveSession mgr freshId now
      let (session, notes) := enqueueCore now trimmed session
      .ok (putSession mgr session, notes)

/-- `interruptCurrentResponse`: no session or no live runtime handle fails;
an interrupt already in flight reports success without further effect;
otherwise the runtime handle is asked to interrupt and, on success,
`handleMessageStopped` runs (`isInterruptingResponse` is set for the
duration of the call and cleared in the `finally`, so its net value is
unchanged).  The session's abort flag is not touched. -/
def interruptCurrentResponse (now : Nat) (sessionId : Option String) (mgr : ManagerState) :
    ManagerState × Bool :=
  let session? :=
    match truthyId sessionId with
    | some sid => getSessionM mgr sid
    | none => getActiveSession mgr
  match session? with
  | none => (mgr, false)
  | some session =>
    if session.hasQuerySession = false then (mgr, false)
    else if session.isInterruptingResponse = true then (mgr, true)
    else
      let session := handleMessageStopped now session
      (putSession mgr session, true)

/-! ## Lifecycle transition system

The session's lifecycle state is written only at: `enqueueUserMessage` line
1479 and `startStreamingSession` line 904 (`running`), `handleMessageComplete`
/ `handleMessageStopped` (`idle`), and the driving loop's catch/finally
(lines 1351–1364: `handleMessageError` then `error`, or `idle` when the loop
ends without error).  Each engine operation below is the net effect of one
of those code paths on (lifecycle state, driving-loop liveness); events that
do not touch the state are omitted as self-loops. -/

inductive EngineOp where
  | enqueueTurn
  | turnComplete
  | interruptStop
  | streamFailure
  | streamEnd
deriving DecidableEq, Repr

structure EngineState where
  state : SessionState
  loopLive : Bool
deriving DecidableEq, Repr

/-- One engine operation: `none` when the operation is impossible in that
state (loop-bound operations need a live driving loop). -/
def engineStep : EngineOp → EngineState → Option EngineState
  | .enqueueTurn, _ => some ⟨.running, true⟩
  | .turnComplete, st => if st.loopLive then some ⟨.idle, st.loopLive⟩ else none
  | .interruptStop, st => if st.loopLive then some ⟨.idle, st.loopLive⟩ else none
  | .streamFailure, st => if st.loopLive then some ⟨.error, false⟩ else none
  | .streamEnd, st =>
    if st.loopLive then some ⟨if st.state = .error then .error else .idle, false⟩ else none

def engineInit : EngineState := ⟨.idle, false⟩

inductive EngineReachable : EngineState → Prop where
  | init : EngineReachable engineInit
  | step (op : EngineOp) (s s' : EngineState) :
      EngineReachable s → engineStep op s = some s' → EngineReachable s'

/-- The transition edges the specification allows. -/
def claimedEdge (a b : SessionState) : Prop :=
  (a = .idle ∧ b = .running) ∨ (a = .running ∧ b = .idle) ∨
  (a = .running ∧ b = .error) ∨ (a = .error ∧ b = .running)

instance (a b : SessionState) : Decidable (claimedEdge a b) := by
  unfold claimedEdge; infer_instance

/-- The transition edges the code actually realises: the claimed ones plus
idle→error (a stream failure arriving after a terminal result has already
set the state idle, while the driving loop is still consuming). -/
def amendedEdge (a b : SessionState) : Prop :=
  claimedEdge a b ∨ (a = .idle ∧ b = .error)

instance (a b : SessionState) : Decidable (amendedEdge a b) := by
  unfold amendedEdge; infer_instance

/-! ## Helper lemmas: association lists -/

theorem getA_setA_self [BEq α] [LawfulBEq α] (m : List (α × β)) (k : α) (v : β) :
    getA (setA m k v) k = some v := by
  induction m with
  | nil => simp [setA, getA]
  | cons p rest ih =>
    by_cases hp : (p.1 == k) = true
    · simp [setA, getA, hp]
    · simp [setA, getA, hp, ih]

theorem getA_setA_ne [BEq α] [LawfulBEq α] (m : List (α × β)) (k k' : α) (v : β)
    (h : k' ≠ k) : getA (setA m k v) k' = getA m k' := by
  have hkk : ((k : α) == k') = false := beq_eq_false_iff_ne.mpr (Ne.symm h)
  induction m with
  | nil => simp [setA, getA, hkk]
  | cons p rest ih =>
    by_cases hp : (p.1 == k) = true
    · have hk : p.1 = k := by simpa using hp
      have hpk' : (p.1 == k') = false := by
        rw [hk]; exact hkk
      simp [setA, getA, hp, hkk, hpk']
    · by_cases hq : (p.1 == k') = true
      · simp [setA, getA, hp, hq]
      · simp [setA, getA, hp, hq, ih]

theorem getA_nil [BEq α] (k : α) : getA ([] : List (α × β)) k = none := rfl

theorem hasA_false_of_getA_none [BEq α] (m : List (α × β)) (k : α)
    (h : getA m k = none) : hasA m k = false := by
  unfold hasA; rw [h]; rfl

/-! ## Helper lemmas: last-element surgery -/

theorem modifyLastList_eq (f : α → α) (l : List α) (a : α) (h : l.getLast? = some a) :
    modifyLastList f l = l.dropLast ++ [f a] := by
  induction l with
  | nil => simp at h
  | cons x rest ih =>
    cases rest with
    | nil =>
      simp only [List.getLast?_singleton, Option.some.injEq] at h
      subst h
      rfl
    | cons y t =>
      have h' : (y :: t).getLast? = some a := by
        rwa [List.getLast?_cons_cons] at h
      simp only [modifyLastList, ih h', List.dropLast, List.cons_append]

theorem getLast?_append_singleton (l : List α) (a : α) :
    (l ++ [a]).getLast? = some a := by
  simp

/-! ## C10: blank input is a complete no-op -/

/-- C10: for every input text that trims to the empty string,
`enqueueUserMessage` returns successfully without looking up or creating any
session, without touching the registry and without emitting anything. -/
theorem enqueueUserMessage_blank_noop (now : Nat) (text : String) (sessionId : Option String)
    (freshId : String) (mgr : ManagerState) (h : jsTrim text = "") :
    enqueueUserMessage now text sessionId freshId mgr = .ok (mgr, []) := by
  unfold enqueueUserMessage
  rw [h]
  simp

/-- Witness for C10 at a whitespace-only input and an unknown session id. -/
theorem enqueueUserMessage_blank_noop_witness :
    jsTrim "  \t " = "" ∧
    enqueueUserMessage 7 "  \t " (some "unknown-session") "fresh"
        { sessions := [], activeSessionId := none, agentDir := "/w" } =
      .ok ({ sessions := [], activeSessionId := none, agentDir := "/w" }, []) :=
  ⟨by decide, enqueueUserMessage_blank_noop 7 "  \t " (some "unknown-session") "fresh" _ (by decide)⟩

/-! ## C3: deleting a session -/

theorem getA_delA_self [BEq α] [LawfulBEq α] (m : List (α × β)) (k : α) :
    getA (delA m k) k = none := by
  induction m with
  | nil => rfl
  | cons p rest ih =>
    by_cases hp : (p.1 == k) = true
    · simpa [delA, List.filter_cons, hp] using ih
    · simpa [delA, List.filter_cons, hp, getA] using ih

theorem getA_delA_ne [BEq α] [LawfulBEq α] (m : List (α × β)) (k k' : α)
    (h : k' ≠ k) : getA (delA m k) k' = getA m k' := by
  induction m with
  | nil => rfl
  | cons p rest ih =>
    by_cases hp : (p.1 == k) = true
    · have hk : p.1 = k := by simpa using hp
      have hpk' : (p.1 == k') = false := by
        rw [hk]; exact beq_eq_false_iff_ne.mpr (Ne.symm h)
      simpa [delA, List.filter_cons, hp, getA, hpk'] using ih
    · by_cases hq : (p.1 == k') = true
      · simp [delA, List.filter_cons, hp, getA, hq]
      · simpa [delA, List.filter_cons, hp, getA, hq] using ih

theorem reselectActive_sessions (mgr : ManagerState) (id : String) :
    (reselectActive mgr id).sessions = mgr.sessions := by
  unfold reselectActive setActiveSession
  split
  · split
    · rfl
    · split <;> rfl
  · rfl

/-- C3: deleting an existing running session fails and changes nothing;
deleting any other existing session succeeds, removes exactly that session,
preserves every other registry binding, leaves the active pointer alone when
the deleted session was not active, and otherwise repoints it at an existing
remaining session or clears it when none remains. -/
theorem deleteSession_spec (mgr : ManagerState) (id : String) (session : Session)
    (hfind : getA mgr.sessions id = some session) :
    (session.sessionState = .running → deleteSession mgr id = (mgr, false)) ∧
    (session.sessionState ≠ .running →
      (deleteSession mgr id).2 = true ∧
      getA (deleteSession mgr id).1.sessions id = none ∧
      (∀ id', id' ≠ id →
        getA (deleteSession mgr id).1.sessions id' = getA mgr.sessions id') ∧
      (mgr.activeSessionId ≠ some id →
        (deleteSession mgr id).1.activeSessionId = mgr.activeSessionId) ∧
      (mgr.activeSessionId = some id →
        ((deleteSession mgr id).1.sessions = [] ∧
            (deleteSession mgr id).1.activeSessionId = none) ∨
        (∃ rid s', (deleteSession mgr id).1.activeSessionId = some rid ∧
            getA (deleteSession mgr id).1.sessions rid = some s'))) := by
  constructor
  · intro hrun
    unfold deleteSession
    rw [hfind]
    dsimp only
    rw [if_pos hrun]
  · intro hnrun
    have hres : deleteSession mgr id =
        (reselectActive { mgr with sessions := delA mgr.sessions id } id, true) := by
      unfold deleteSession
      rw [hfind]
      dsimp only
      rw [if_neg hnrun]
    rw [hres]
    refine ⟨rfl, ?_, ?_, ?_, ?_⟩
    · rw [reselectActive_sessions]
      exact getA_delA_self mgr.sessions id
    · intro id' hne
      rw [reselectActive_sessions]
      exact getA_delA_ne mgr.sessions id id' hne
    · intro hnact
      unfold reselectActive
      rw [if_neg (by simpa using hnact)]
    · intro hact
      unfold reselectActive
      rw [if_pos (by simp [hact])]
      cases hdel : delA mgr.sessions id with
      | nil => exact Or.inl ⟨by simp [hdel], rfl⟩
      | cons hd tl =>
        obtain ⟨rid, s'⟩ := hd
        refine Or.inr ⟨rid, s', ?_, ?_⟩
        · simp only [hdel]
          unfold setActiveSession
          simp [getA]
        · simp only [hdel]
          unfold setActiveSession
          simp [getA]

def sessC3a : Session := mkSession "a" 0

def mgrC3 : ManagerState :=
  { sessions := [("a", sessC3a), ("b", mkSession "b" 1)], activeSessionId := some "a" }

/-- Witness for C3: deleting the active idle session "a" of a two-session
registry succeeds and activates the remaining session. -/
theorem deleteSession_spec_witness :
    getA mgrC3.sessions "a" = some sessC3a ∧
    (deleteSession mgrC3 "a").2 = true ∧
    (deleteSession mgrC3 "a").1.activeSessionId = some "b" := by
  refine ⟨rfl, ?_, by rfl⟩
  exact ((deleteSession_spec mgrC3 "a" sessC3a rfl).2 (by decide)).1

/-! ## C8: display name from the first user turn -/

/-- C8: enqueuing the first user turn of a fresh session stores the turn as
a user message, derives the display name from its text via
`autoGenerateName` (first 30 characters, cut at a sentence boundary, with an
ellipsis when the text exceeds 30 characters), emits a session-updated
notification carrying that name, and transitions the state to running. -/
theorem enqueue_first_turn_name (now : Nat) (trimmed : String) (s : Session)
    (hfresh : s.messages = []) :
    (enqueueCore now trimmed s).1.name = autoGenerateName trimmed ∧
    (enqueueCore now trimmed s).1.messages =
      [⟨toString s.messageSequence, .user, .str trimmed, now⟩] ∧
    (enqueueCore now trimmed s).1.sessionState = .running ∧
    Note.sessionUpdated (autoGenerateName trimmed) ∈ (enqueueCore now trimmed s).2 := by
  unfold enqueueCore
  by_cases h1 : s.sessionState = SessionState.running <;>
    by_cases h2 : s.isProcessing = true ∨ s.hasQuerySession = true <;>
    simp [setSessionState, updateNameFromFirstMessage, startStreamingStart, hfresh, h1, h2]

/-- Witness for C8: the spec's scenario input `"fix the crash"`. -/
theorem enqueue_first_turn_name_witness :
    (enqueueCore 1 "fix the crash" (mkSession "sid" 0)).1.name = "fix the crash" ∧
    Note.sessionUpdated "fix the crash" ∈ (enqueueCore 1 "fix the crash" (mkSession "sid" 0)).2 ∧
    (enqueueCore 1 "fix the crash" (mkSession "sid" 0)).1.sessionState = .running := by
  have h := enqueue_first_turn_name 1 "fix the crash" (mkSession "sid" 0) rfl
  have hname : autoGenerateName "fix the crash" = "fix the crash" := by decide
  exact ⟨by rw [h.1, hname], by have := h.2.2.2; rwa [hname] at this, h.2.2.1⟩

/-! ## C9: interrupting a running session -/

theorem truthyId_some_ne (sid : String) (h : sid ≠ "") :
    truthyId (some sid) = some sid := by
  simp [truthyId, h]

theorem setSessionState_fst_state (s : Session) (st : SessionState) :
    ((setSessionState s st).1).sessionState = st := by
  unfold setSessionState
  split
  · assumption
  · rfl

theorem setSessionState_fst_messages (s : Session) (st : SessionState) :
    ((setSessionState s st).1).messages = s.messages := by
  unfold setSessionState
  split <;> rfl

theorem setSessionState_fst_shouldAbort (s : Session) (st : SessionState) :
    ((setSessionState s st).1).shouldAbortSession = s.shouldAbortSession := by
  unfold setSessionState
  split <;> rfl

theorem setSessionState_fst_isStreaming (s : Session) (st : SessionState) :
    ((setSessionState s st).1).isStreamingMessage = s.isStreamingMessage := by
  unfold setSessionState
  split <;> rfl

theorem modifyLastList_getLast? (f : α → α) (l : List α) :
    (modifyLastList f l).getLast? = l.getLast?.map f := by
  cases hl : l.getLast? with
  | none =>
    have : l = [] := by
      cases l with
      | nil => rfl
      | cons a t => simp at hl
    subst this
    rfl
  | some a =>
    rw [modifyLastList_eq f l a hl]
    simp

theorem modifyLastList_dropLast (f : α → α) (l : List α) :
    (modifyLastList f l).dropLast = l.dropLast := by
  cases hl : l.getLast? with
  | none =>
    have : l = [] := by
      cases l with
      | nil => rfl
      | cons a t => simp at hl
    subst this
    rfl
  | some a =>
    rw [modifyLastList_eq f l a hl]
    simp

theorem stoppedBody_sessionState (now : Nat) (s : Session) :
    (stoppedBody now s).sessionState = s.sessionState := by
  unfold stoppedBody
  split
  · rfl
  · split
    · split <;> rfl
    · rfl

theorem stoppedBody_isStreaming (now : Nat) (s : Session) :
    (stoppedBody now s).isStreamingMessage = s.isStreamingMessage := by
  unfold stoppedBody
  split
  · rfl
  · split
    · split <;> rfl
    · rfl

theorem stoppedBody_shouldAbort (now : Nat) (s : Session) :
    (stoppedBody now s).shouldAbortSession = s.shouldAbortSession := by
  unfold stoppedBody
  split
  · rfl
  · split
    · split <;> rfl
    · rfl

theorem stoppedBody_messages_dropLast (now : Nat) (s : Session) :
    (stoppedBody now s).messages.dropLast = s.messages.dropLast := by
  unfold stoppedBody
  split
  · rfl
  · split
    · split
      · exact modifyLastList_dropLast _ _
      · rfl
    · rfl

theorem handleMessageStopped_sessionState (now : Nat) (s : Session) :
    (handleMessageStopped now s).sessionState = .idle := by
  unfold handleMessageStopped
  rw [stoppedBody_sessionState, setSessionState_fst_state]

theorem handleMessageStopped_isStreaming (now : Nat) (s : Session) :
    (handleMessageStopped now s).isStreamingMessage = false := by
  unfold handleMessageStopped
  rw [stoppedBody_isStreaming, setSessionState_fst_isStreaming]

theorem handleMessageStopped_shouldAbort (now : Nat) (s : Session) :
    (handleMessageStopped now s).shouldAbortSession = s.shouldAbortSession := by
  unfold handleMessageStopped
  rw [stoppedBody_shouldAbort, setSessionState_fst_shouldAbort]

theorem handleMessageStopped_messages_dropLast (now : Nat) (s : Session) :
    (handleMessageStopped now s).messages.dropLast = s.messages.dropLast := by
  unfold handleMessageStopped
  rw [stoppedBody_messages_dropLast, setSessionState_fst_messages]

theorem handleMessageStopped_last (now : Nat) (s : Session) (last : MessageWire)
    (bs : List ContentBlock) (hlast : s.messages.getLast? = some last)
    (hrole : last.role = .assistant) (hcontent : last.content = .blocks bs) :
    (handleMessageStopped now s).messages.getLast? =
      some { last with content := .blocks (bs.map (forceCompleteThinking now)) } := by
  unfold handleMessageStopped stoppedBody
  have h : ((setSessionState { s with isStreamingMessage := false } .idle).1).messages
      = s.messages := setSessionState_fst_messages _ _
  rw [h, hlast]
  dsimp only
  rw [if_pos hrole, hcontent]
  dsimp only [modifyLast]
  rw [h, modifyLastList_getLast?, hlast]
  simp [hcontent]

def c9Session : Session :=
  { mkSession "s9" 0 with
    sessionState := .running,
    hasQuerySession := true,
    messages := [⟨"0", .assistant, .blocks [.thinking "t" (some 5) none (some 0) false], 0⟩,
                 ⟨"1", .user, .str "again", 1⟩] }

def c9Mgr : ManagerState :=
  { sessions := [("s9", c9Session)], activeSessionId := some "s9" }

/-- C9 counterexample: a running session with a live runtime handle whose
message log ends with a user turn while an earlier assistant turn still
holds an open reasoning segment.  The interrupt succeeds (returns true) and
transitions to idle, yet the open reasoning segment of the earlier turn is
left incomplete and the session's abort flag (`shouldAbortSession`) remains
false — contradicting the claim that a successful interrupt sets the abort
flag and force-completes every still-open reasoning segment in the message
log. -/
theorem interrupt_claim_fails_at_concrete :
    (interruptCurrentResponse 10 (some "s9") c9Mgr).2 = true ∧
    getSessionM (interruptCurrentResponse 10 (some "s9") c9Mgr).1 "s9" =
      some (handleMessageStopped 10 c9Session) ∧
    (handleMessageStopped 10 c9Session).sessionState = .idle ∧
    (handleMessageStopped 10 c9Session).shouldAbortSession = false ∧
    (handleMessageStopped 10 c9Session).messages.head? =
      some ⟨"0", .assistant, .blocks [.thinking "t" (some 5) none (some 0) false], 0⟩ :=
  ⟨rfl, rfl, rfl, rfl, rfl⟩

/-- C9 amended: a successful interrupt of a session with a live runtime
handle (and no interrupt already in flight) returns success, applies
`handleMessageStopped`, transitions the state to idle, clears the streaming
flag, leaves the abort flag unchanged (it is never set), leaves every
message but the last untouched, and force-completes the open reasoning
segments of the last message only — and only when that last message is an
assistant message with segmented content. -/
theorem interrupt_success_effect (now : Nat) (sid : String) (mgr : ManagerState)
    (session : Session) (hsid : sid ≠ "")
    (hfind : getSessionM mgr sid = some session)
    (hq : session.hasQuerySession = true)
    (hni : session.isInterruptingResponse = false) :
    interruptCurrentResponse now (some sid) mgr =
      (putSession mgr (handleMessageStopped now session), true) ∧
    (handleMessageStopped now session).sessionState = .idle ∧
    (handleMessageStopped now session).isStreamingMessage = false ∧
    (handleMessageStopped now session).shouldAbortSession = session.shouldAbortSession ∧
    (handleMessageStopped now session).messages.dropLast = session.messages.dropLast ∧
    (∀ last bs, session.messages.getLast? = some last → last.role = .assistant →
      last.content = .blocks bs →
      (handleMessageStopped now session).messages.getLast? =
        some { last with content := .blocks (bs.map (forceCompleteThinking now)) }) := by
  refine ⟨?_, handleMessageStopped_sessionState now session,
    handleMessageStopped_isStreaming now session,
    handleMessageStopped_shouldAbort now session,
    handleMessageStopped_messages_dropLast now session,
    fun last bs hlast hrole hcontent =>
      handleMessageStopped_last now session last bs hlast hrole hcontent⟩
  unfold interruptCurrentResponse
  rw [truthyId_some_ne sid hsid]
  dsimp only
  rw [hfind]
  dsimp only
  rw [hq]
  simp [hni]

def c9bSession : Session :=
  { mkSession "w9" 0 with
    sessionState := .running,
    hasQuerySession := true,
    isStreamingMessage := true,
    messages := [⟨"0", .assistant, .blocks [.thinking "hm" (some 3) none (some 0) false], 0⟩] }

def c9bMgr : ManagerState :=
  { sessions := [("w9", c9bSession)], activeSessionId := some "w9" }

/-- Witness for the amended C9 theorem: interrupting a running session whose
last (and only) assistant message holds an open reasoning segment completes
that segment with its elapsed duration. -/
theorem interrupt_success_effect_witness :
    (interruptCurrentResponse 10 (some "w9") c9bMgr).2 = true ∧
    (handleMessageStopped 10 c9bSession).messages.getLast? =
      some ⟨"0", .assistant, .blocks [.thinking "hm" (some 3) (some 7) (some 0) true], 0⟩ := by
  have h := interrupt_success_effect 10 "w9" c9bMgr c9bSession (by decide) rfl rfl rfl
  refine ⟨by rw [h.1], ?_⟩
  have hlast := h.2.2.2.2.2 ⟨"0", .assistant,
    .blocks [.thinking "hm" (some 3) none (some 0) false], 0⟩
    [.thinking "hm" (some 3) none (some 0) false] rfl rfl rfl
  rw [hlast]
  rfl

/-! ## C7 / C1: tool-argument deltas and segment stop -/

theorem ensureAssistantMessage_noop (now : Nat) (s : Session) (m0 : MessageWire)
    (hlast : s.messages.getLast? = some m0) (hrole : m0.role = .assistant)
    (hstream : s.isStreamingMessage = true) :
    ensureAssistantMessage now s = s := by
  unfold ensureAssistantMessage
  rw [hlast]
  dsimp only
  rw [if_pos ⟨hrole, hstream⟩]

/-- C7: on a tool-argument delta addressed to an existing top-level tool
block, the session changes only in its last message, where exactly the first
block with the addressed id is updated by `applyInputDelta`: the delta is
appended to the raw-argument buffer, the buffer is re-parsed through the
incremental reconstructor, a successful parse replaces the cached structured
input while a failed parse leaves it untouched, and no other field of the
record changes (no error is surfaced in either case — the handler is total).
The same characterisation holds for the subagent-call variant
(`applyCallInputDelta`). -/
theorem tool_input_delta_effect (now index : Nat) (toolId delta : String) (s : Session)
    (m0 : MessageWire) (bs : List ContentBlock)
    (hlast : s.messages.getLast? = some m0) (hrole : m0.role = .assistant)
    (hstream : s.isStreamingMessage = true) (hcontent : m0.content = .blocks bs) :
    handleToolInputDelta now index toolId delta s =
      { s with messages := s.messages.dropLast ++
          [{ m0 with content := .blocks (mapFirstToolWhere (fun tb => tb.id == toolId)
              (applyInputDelta delta) bs) }] } ∧
    (∀ tb : ToolUseState, applyInputDelta delta tb =
      { tb with
        inputJson := some (tb.inputJson.getD "" ++ delta),
        parsedInput :=
          match parsePartialJson (tb.inputJson.getD "" ++ delta) with
          | some v => some v
          | none => tb.parsedInput }) ∧
    (∀ c : SubagentToolCall, applyCallInputDelta delta c =
      { c with
        inputJson := some (c.inputJson.getD "" ++ delta),
        parsedInput :=
          match parsePartialJson (c.inputJson.getD "" ++ delta) with
          | some v => some v
          | none => c.parsedInput }) := by
  refine ⟨?_, ?_, ?_⟩
  · unfold handleToolInputDelta
    rw [ensureAssistantMessage_noop now s m0 hlast hrole hstream]
    unfold modifyLast
    dsimp only
    rw [modifyLastList_eq _ _ m0 hlast]
    obtain ⟨mid, mrole, mcont, mts⟩ := m0
    simp only at hcontent
    subst hcontent
    rfl
  · intro tb
    unfold applyInputDelta
    dsimp only
    cases hp : parsePartialJson (tb.inputJson.getD "" ++ delta) <;> simp [hp]
  · intro c
    unfold applyCallInputDelta
    dsimp only
    cases hp : parsePartialJson (c.inputJson.getD "" ++ delta) <;> simp [hp]

def c7Session : Session :=
  { mkSession "s7" 0 with
    isStreamingMessage := true,
    messages := [⟨"0", .assistant,
      .blocks [.toolUse { id := "t1", name := "Write", input := .obj [],
                          streamIndex := 0, inputJson := some "\x7b\"a\":" }], 0⟩] }

/-- Witness for C7: a delta completing the buffer to valid JSON replaces the
cached structured input; a delta producing an unrecoverable buffer leaves a
previously cached structured input untouched. -/
theorem tool_input_delta_effect_witness :
    handleToolInputDelta 1 0 "t1" "1\x7d" c7Session =
      { c7Session with messages := [⟨"0", .assistant,
          .blocks [.toolUse { id := "t1", name := "Write", input := .obj [],
                              streamIndex := 0, inputJson := some "\x7b\"a\":1\x7d",
                              parsedInput := some (.obj [("a", .num "1")]) }], 0⟩] } ∧
    applyInputDelta "x"
        { id := "t2", name := "Read", input := .obj [], streamIndex := 1,
          inputJson := some "", parsedInput := some (.obj [("k", .str "v")]) } =
      { id := "t2", name := "Read", input := .obj [], streamIndex := 1,
        inputJson := some "x", parsedInput := some (.obj [("k", .str "v")]) } := by
  have h := tool_input_delta_effect 1 0 "t1" "1\x7d" c7Session
    ⟨"0", .assistant,
      .blocks [.toolUse { id := "t1", name := "Write", input := .obj [],
                          streamIndex := 0, inputJson := some "\x7b\"a\":" }], 0⟩
    [.toolUse { id := "t1", name := "Write", input := .obj [],
                streamIndex := 0, inputJson := some "\x7b\"a\":" }]
    rfl rfl rfl rfl
  have h2 := tool_input_delta_effect 1 0 "t1" "x" c7Session
    ⟨"0", .assistant,
      .blocks [.toolUse { id := "t1", name := "Write", input := .obj [],
                          streamIndex := 0, inputJson := some "\x7b\"a\":" }], 0⟩
    [.toolUse { id := "t1", name := "Write", input := .obj [],
                streamIndex := 0, inputJson := some "\x7b\"a\":" }]
    rfl rfl rfl rfl
  refine ⟨?_, ?_⟩
  · rw [h.1]
    rfl
  · rw [h2.2.1
      { id := "t2", name := "Read", input := .obj [], streamIndex := 1,
        inputJson := some "", parsedInput := some (.obj [("k", .str "v")]) }]
    rfl

theorem freezeToolInput_id (tb : ToolUseState) : (freezeToolInput tb).id = tb.id := by
  unfold freezeToolInput
  repeat' split
  all_goals rfl

theorem freezeToolInput_streamIndex (tb : ToolUseState) :
    (freezeToolInput tb).streamIndex = tb.streamIndex := by
  unfold freezeToolInput
  repeat' split
  all_goals rfl

theorem stopToolSel_freeze (index : Nat) (toolId : Option String) (tb : ToolUseState) :
    stopToolSel index toolId (freezeToolInput tb) = stopToolSel index toolId tb := by
  cases toolId <;>
    simp [stopToolSel, freezeToolInput_id, freezeToolInput_streamIndex]

theorem findFirstToolWhere_mapFirst (sel : ToolUseState → Bool)
    (f : ToolUseState → ToolUseState) (bs : List ContentBlock)
    (hpres : ∀ t, sel (f t) = sel t) :
    findFirstToolWhere sel (mapFirstToolWhere sel f bs) =
      (findFirstToolWhere sel bs).map f := by
  induction bs with
  | nil => rfl
  | cons b bs ih =>
    cases b with
    | toolUse tb =>
      by_cases hsel : sel tb = true
      · simp [mapFirstToolWhere, findFirstToolWhere, toolOf?, hsel, hpres]
      · simp [mapFirstToolWhere, findFirstToolWhere, toolOf?, hsel, ih]
    | text t => simpa [mapFirstToolWhere, findFirstToolWhere, toolOf?] using ih
    | thinking a b c d e => simpa [mapFirstToolWhere, findFirstToolWhere, toolOf?] using ih

/-- C1: at a tool-invocation segment stop (no open reasoning segment shares
the stream index), when the located tool block's accumulated raw-argument
buffer is valid JSON, the structured input frozen at the stop equals the
result of strictly parsing the full buffer — and the incremental
reconstructor applied to that buffer, being strict-parse-first, yields the
same value. -/
theorem stop_freezes_strict_parse (now index : Nat) (toolId : Option String) (s : Session)
    (m0 : MessageWire) (bs : List ContentBlock) (tb : ToolUseState) (b : String) (v : Json)
    (hlast : s.messages.getLast? = some m0) (hrole : m0.role = .assistant)
    (hstream : s.isStreamingMessage = true) (hcontent : m0.content = .blocks bs)
    (hnothink : hasOpenThinkingAt index bs = false)
    (hfound : findFirstToolWhere (stopToolSel index toolId) bs = some tb)
    (hbuf : tb.inputJson = some b) (hb : b ≠ "") (hparse : jsonParse b = some v) :
    (handleContentBlockStop now index toolId s).messages.getLast? =
      some { m0 with content := .blocks (mapFirstToolWhere (stopToolSel index toolId)
          freezeToolInput bs) } ∧
    findFirstToolWhere (stopToolSel index toolId)
        (mapFirstToolWhere (stopToolSel index toolId) freezeToolInput bs) =
      some { tb with parsedInput := some v } ∧
    parsePartialJson b = some v := by
  have hfreeze : freezeToolInput tb = { tb with parsedInput := some v } := by
    unfold freezeToolInput
    rw [hbuf]
    dsimp only
    rw [if_neg hb, hparse]
  refine ⟨?_, ?_, ?_⟩
  · unfold handleContentBlockStop
    rw [ensureAssistantMessage_noop now s m0 hlast hrole hstream]
    unfold modifyLast
    dsimp only
    rw [modifyLastList_getLast?, hlast]
    obtain ⟨mid, mrole, mcont, mts⟩ := m0
    simp only at hcontent
    subst hcontent
    simp [promoteContent, hnothink]
  · rw [findFirstToolWhere_mapFirst _ _ _ (stopToolSel_freeze index toolId), hfound]
    simp [hfreeze]
  · unfold parsePartialJson
    rw [hparse]

def c1Session : Session :=
  { mkSession "s1" 0 with
    isStreamingMessage := true,
    messages := [⟨"0", .assistant,
      .blocks [.toolUse { id := "t1", name := "Read", input := .obj [],
                          streamIndex := 0,
                          inputJson := some "\x7b\"path\":\"/a.txt\"\x7d" }], 0⟩] }

/-- Witness for C1: the spec's scenario — buffer `{"path":"/a.txt"}` is
frozen at segment stop to the strict parse of the full concatenation. -/
theorem stop_freezes_strict_parse_witness :
    jsonParse "\x7b\"path\":\"/a.txt\"\x7d" = some (.obj [("path", .str "/a.txt")]) ∧
    (handleContentBlockStop 2 0 (some "t1") c1Session).messages.getLast? =
      some ⟨"0", .assistant,
        .blocks [.toolUse { id := "t1", name := "Read", input := .obj [],
                            streamIndex := 0,
                            inputJson := some "\x7b\"path\":\"/a.txt\"\x7d",
                            parsedInput := some (.obj [("path", .str "/a.txt")]) }], 0⟩ ∧
    parsePartialJson "\x7b\"path\":\"/a.txt\"\x7d" = some (.obj [("path", .str "/a.txt")]) := by
  have h := stop_freezes_strict_parse 2 0 (some "t1") c1Session
    ⟨"0", .assistant,
      .blocks [.toolUse { id := "t1", name := "Read", input := .obj [],
                          streamIndex := 0,
                          inputJson := some "\x7b\"path\":\"/a.txt\"\x7d" }], 0⟩
    [.toolUse { id := "t1", name := "Read", input := .obj [],
                streamIndex := 0, inputJson := some "\x7b\"path\":\"/a.txt\"\x7d" }]
    { id := "t1", name := "Read", input := .obj [], streamIndex := 0,
      inputJson := some "\x7b\"path\":\"/a.txt\"\x7d" }
    "\x7b\"path\":\"/a.txt\"\x7d" (.obj [("path", .str "/a.txt")])
    rfl rfl rfl rfl rfl rfl rfl (by decide) rfl
  exact ⟨rfl, h.1, h.2.2⟩

/-! ## Frame lemmas for tool-record surgery -/

theorem findToolInBlocks_mapFirst (tid : String) (f : ToolUseState → ToolUseState)
    (bs : List ContentBlock) (hid : ∀ t, (f t).id = t.id) :
    findToolInBlocks (mapFirstToolWhere (fun tb => tb.id == tid) f bs) tid =
      (findToolInBlocks bs tid).map f := by
  unfold findToolInBlocks
  exact findFirstToolWhere_mapFirst _ _ _ (fun t => by rw [hid])

theorem msgTool?_some_inv (m : MessageWire) (tid : String) (tb : ToolUseState)
    (h : msgTool? m tid = some tb) :
    m.role = .assistant ∧ ∃ bs, m.content = .blocks bs ∧ findToolInBlocks bs tid = some tb := by
  unfold msgTool? at h
  by_cases hrole : m.role = .assistant
  · rw [if_pos hrole] at h
    cases hcont : m.content with
    | str c => rw [hcont] at h; exact absurd h (by simp)
    | blocks bs =>
      rw [hcont] at h
      exact ⟨hrole, bs, rfl, by simpa using h⟩
  · rw [if_neg hrole] at h
    cases h

theorem findToolRev_updateToolRev (tid : String) (f : ToolUseState → ToolUseState)
    (hid : ∀ t, (f t).id = t.id) (l : List MessageWire) :
    findToolRev (updateToolRev tid f l) tid = (findToolRev l tid).map f := by
  induction l with
  | nil => rfl
  | cons m rest ih =>
    unfold updateToolRev
    cases hm : msgTool? m tid with
    | none =>
      unfold findToolRev
      simp only [hm]
      exact ih
    | some tb =>
      obtain ⟨hrole, bs, hcont, hfindb⟩ := msgTool?_some_inv m tid tb hm
      have hmsg : msgTool? { m with content := MsgContent.blocks (mapFirstToolWhere (fun t => t.id == tid) f bs) } tid = some (f tb) := by
        unfold msgTool?
        rw [if_pos (by simpa using hrole)]
        dsimp only
        rw [findToolInBlocks_mapFirst tid f bs hid, hfindb]
        rfl
      rw [hcont]
      unfold findToolRev
      simp only [hmsg, hm]
      rfl

theorem findToolBlockById_updateToolById (s : Session) (tid : String)
    (f : ToolUseState → ToolUseState) (hid : ∀ t, (f t).id = t.id) :
    findToolBlockById (updateToolById s tid f) tid = (findToolBlockById s tid).map f := by
  unfold findToolBlockById updateToolById
  dsimp only
  rw [List.reverse_reverse]
  exact findToolRev_updateToolRev tid f hid s.messages.reverse

theorem find?_append_of_none {p : α → Bool} (l1 l2 : List α)
    (h : l1.find? p = none) : (l1 ++ l2).find? p = l2.find? p := by
  rw [List.find?_append, h, Option.none_or]

theorem mapFirstCall_append_of_none (cid : String) (f : SubagentToolCall → SubagentToolCall)
    (l1 : List SubagentToolCall) (c : SubagentToolCall)
    (hl1 : l1.find? (fun c => c.id == cid) = none) (hc : c.id = cid) :
    mapFirstCall cid f (l1 ++ [c]) = l1 ++ [f c] := by
  induction l1 with
  | nil => simp [mapFirstCall, hc]
  | cons x xs ih =>
    have hx : ¬ x.id = cid := by
      have := List.find?_eq_none.mp hl1 x (by simp)
      simpa using this
    have hxs : xs.find? (fun c => c.id == cid) = none := by
      rw [List.find?_eq_none] at hl1 ⊢
      intro a ha
      exact hl1 a (by simp [ha])
    simp [mapFirstCall, hx, ih hxs]

/-! ## C5: placeholder synthesis and backfill for early tool results -/

/-- The placeholder subagent call synthesized for an unseen child id. -/
def placeholderCall (c1 : String) : SubagentToolCall :=
  { id := c1, name := "Tool", input := .obj [], inputJson := some "\x7b\x7d",
    isLoading := some true }

theorem ensureSubagentToolPlaceholder_creates (t1 c1 : String) (s : Session)
    (pt : ToolUseState) (hfind : findToolBlockById s t1 = some pt)
    (hnosub : (pt.subagentCalls.getD []).find? (fun c => c.id == c1) = none) :
    ensureSubagentToolPlaceholder t1 c1 s =
      updateToolById { s with childToolToParent := setA s.childToolToParent c1 t1 } t1
        (fun t => { t with subagentCalls := some ((t.subagentCalls.getD []) ++ [placeholderCall c1]) }) := by
  unfold ensureSubagentToolPlaceholder
  rw [hfind]
  dsimp only
  rw [hnosub]
  rfl

theorem handleSubagentToolUseStart_backfill (t1 : String) (tool : ToolPayload) (s : Session)
    (pt : ToolUseState) (ex : SubagentToolCall)
    (hfind : findToolBlockById s t1 = some pt)
    (hex : (pt.subagentCalls.getD []).find? (fun c => c.id == tool.id) = some ex) :
    handleSubagentToolUseStart t1 tool s =
      updateToolById { s with childToolToParent := setA s.childToolToParent tool.id t1 } t1
        (fun t => { t with subagentCalls := some (mapFirstCall tool.id (fun c => { c with name := tool.name, input := tool.input, streamIndex := tool.streamIndex }) (t.subagentCalls.getD [])) }) := by
  unfold handleSubagentToolUseStart
  rw [hfind]
  dsimp only
  rw [hex]

theorem handleToolResultStart_subagent_hit (c1 content : String) (isErr : Bool)
    (s : Session) (t1 : String) (pt : ToolUseState) (calls : List SubagentToolCall)
    (ex : SubagentToolCall)
    (hmap : getA s.childToolToParent c1 = some t1)
    (hfind : findToolBlockById s t1 = some pt)
    (hcalls : pt.subagentCalls = some calls)
    (hex : calls.find? (fun c => c.id == c1) = some ex) :
    handleToolResultStart c1 content isErr s =
      updateToolById s t1
        (fun t => { t with subagentCalls := some (mapFirstCall c1 (fun c => { c with result := some content, isError := some isErr, isLoading := some true }) (t.subagentCalls.getD [])) }) := by
  unfold handleToolResultStart handleSubagentToolResultStart
  rw [hmap]
  dsimp only
  rw [hfind]
  dsimp only
  rw [hcalls]
  dsimp only
  rw [hex]

theorem processEvent_toolResultStart_unseen (now i : Nat) (t1 c1 r : String)
    (isErr : Bool) (s : Session) (ht1 : t1 ≠ "") (hr : r ≠ "")
    (hnomap : getA s.childToolToParent c1 = none) :
    processEvent now ⟨some t1, .toolResultStart i c1 r isErr⟩ s =
      handleToolResultStart c1 r isErr
        (ensureSubagentToolPlaceholder t1 c1
          { s with toolResultIndexToId := setA s.toolResultIndexToId i c1 }) := by
  unfold processEvent
  dsimp only
  rw [if_neg hr, hnomap]
  dsimp only [Option.orElse]
  rw [truthyId_some_ne t1 ht1]
  dsimp only
  rw [hasA_false_of_getA_none _ _ hnomap]
  rw [if_neg (by decide : ¬ (false = true))]

theorem processEvent_toolUseStart_parent (now i : Nat) (t1 cid nm : String)
    (inp : Json) (s : Session) (ht1 : t1 ≠ "") :
    processEvent now ⟨some t1, .toolUseStart i cid nm inp⟩ s =
      handleSubagentToolUseStart t1 ⟨cid, nm, inp, some i⟩
        { s with streamIndexToToolId := setA s.streamIndexToToolId i cid } := by
  unfold processEvent
  dsimp only
  rw [truthyId_some_ne t1 ht1]

/-- C5: a tool-result-start with non-empty content for a child id `c1`
(parent tag `t1`) whose parent record exists but for which no child mapping
or subagent entry is recorded yet first synthesizes a placeholder
SubagentCall (generic name "Tool", empty input) at the end of `t1`'s call
list and then attaches the result to it; a later tool-invocation-start for
the same id `c1` backfills that entry's name, input and stream index in
place instead of creating a second entry. -/
theorem placeholder_then_backfill (now now2 i i2 : Nat) (t1 c1 n r : String)
    (inp : Json) (isErr : Bool) (s : Session) (pt : ToolUseState)
    (ht1 : t1 ≠ "") (hr : r ≠ "")
    (hfind : findToolBlockById s t1 = some pt)
    (hnomap : getA s.childToolToParent c1 = none)
    (hnosub : (pt.subagentCalls.getD []).find? (fun c => c.id == c1) = none) :
    (∃ pt1, findToolBlockById
        (processEvent now ⟨some t1, .toolResultStart i c1 r isErr⟩ s) t1 = some pt1 ∧
      pt1.subagentCalls = some ((pt.subagentCalls.getD []) ++
        [{ placeholderCall c1 with result := some r, isError := some isErr }])) ∧
    getA (processEvent now ⟨some t1, .toolResultStart i c1 r isErr⟩ s).childToolToParent c1 =
      some t1 ∧
    (∃ pt2, findToolBlockById
        (processEvent now2 ⟨some t1, .toolUseStart i2 c1 n inp⟩
          (processEvent now ⟨some t1, .toolResultStart i c1 r isErr⟩ s)) t1 = some pt2 ∧
      pt2.subagentCalls = some ((pt.subagentCalls.getD []) ++
        [{ placeholderCall c1 with name := n, input := inp, streamIndex := some i2,
                                   result := some r, isError := some isErr }])) := by
  have hfindA : findToolBlockById
      { s with toolResultIndexToId := setA s.toolResultIndexToId i c1 } t1 = some pt := hfind
  have hph := ensureSubagentToolPlaceholder_creates t1 c1
    { s with toolResultIndexToId := setA s.toolResultIndexToId i c1 } pt hfindA hnosub
  have hfind_b : findToolBlockById
      (ensureSubagentToolPlaceholder t1 c1
        { s with toolResultIndexToId := setA s.toolResultIndexToId i c1 }) t1
      = some { pt with subagentCalls := some ((pt.subagentCalls.getD []) ++ [placeholderCall c1]) } := by
    rw [hph, findToolBlockById_updateToolById _ t1 (fun t => { t with subagentCalls := some ((t.subagentCalls.getD []) ++ [placeholderCall c1]) }) (fun t => rfl)]
    have hfindC : findToolBlockById
        { s with toolResultIndexToId := setA s.toolResultIndexToId i c1,
                 childToolToParent := setA s.childToolToParent c1 t1 } t1 = some pt := hfind
    rw [hfindC]
    rfl
  have hchild_b : getA (ensureSubagentToolPlaceholder t1 c1
      { s with toolResultIndexToId := setA s.toolResultIndexToId i c1 }).childToolToParent c1
      = some t1 := by
    rw [hph]
    exact getA_setA_self _ _ _
  have hfindcall : ((pt.subagentCalls.getD []) ++ [placeholderCall c1]).find?
      (fun c => c.id == c1) = some (placeholderCall c1) := by
    rw [find?_append_of_none _ _ hnosub]
    simp [List.find?, placeholderCall]
  have hres := handleToolResultStart_subagent_hit c1 r isErr
    (ensureSubagentToolPlaceholder t1 c1
      { s with toolResultIndexToId := setA s.toolResultIndexToId i c1 })
    t1 { pt with subagentCalls := some ((pt.subagentCalls.getD []) ++ [placeholderCall c1]) }
    ((pt.subagentCalls.getD []) ++ [placeholderCall c1]) (placeholderCall c1)
    hchild_b hfind_b rfl hfindcall
  have hs1 := (processEvent_toolResultStart_unseen now i t1 c1 r isErr s ht1 hr hnomap).trans hres
  have hfind1 : findToolBlockById
      (processEvent now ⟨some t1, .toolResultStart i c1 r isErr⟩ s) t1
      = some { pt with subagentCalls := some ((pt.subagentCalls.getD []) ++ [{ placeholderCall c1 with result := some r, isError := some isErr }]) } := by
    rw [hs1, findToolBlockById_updateToolById _ t1 (fun t => { t with subagentCalls := some (mapFirstCall c1 (fun c => { c with result := some r, isError := some isErr, isLoading := some true }) (t.subagentCalls.getD [])) }) (fun t => rfl), hfind_b]
    dsimp only [Option.map]
    rw [show mapFirstCall c1 (fun c => { c with result := some r, isError := some isErr, isLoading := some true }) (({ pt with subagentCalls := some ((pt.subagentCalls.getD []) ++ [placeholderCall c1]) } : ToolUseState).subagentCalls.getD []) = (pt.subagentCalls.getD []) ++ [{ placeholderCall c1 with result := some r, isError := some isErr }] from mapFirstCall_append_of_none c1 _ _ _ hnosub rfl]
  have hchild1 : getA (processEvent now
      ⟨some t1, .toolResultStart i c1 r isErr⟩ s).childToolToParent c1 = some t1 := by
    rw [hs1]
    exact hchild_b
  refine ⟨⟨_, hfind1, rfl⟩, hchild1, ?_⟩
  have hfind1' : findToolBlockById
      { (processEvent now ⟨some t1, .toolResultStart i c1 r isErr⟩ s) with
        streamIndexToToolId := setA (processEvent now ⟨some t1, .toolResultStart i c1 r isErr⟩ s).streamIndexToToolId i2 c1 } t1
      = some { pt with subagentCalls := some ((pt.subagentCalls.getD []) ++ [{ placeholderCall c1 with result := some r, isError := some isErr }]) } := hfind1
  have hfindcall2 : ((pt.subagentCalls.getD []) ++ [{ placeholderCall c1 with result := some r, isError := some isErr }]).find? (fun c => c.id == c1)
      = some { placeholderCall c1 with result := some r, isError := some isErr } := by
    rw [find?_append_of_none _ _ hnosub]
    simp [List.find?, placeholderCall]
  have hback := handleSubagentToolUseStart_backfill t1 ⟨c1, n, inp, some i2⟩
    { (processEvent now ⟨some t1, .toolResultStart i c1 r isErr⟩ s) with
      streamIndexToToolId := setA (processEvent now ⟨some t1, .toolResultStart i c1 r isErr⟩ s).streamIndexToToolId i2 c1 }
    { pt with subagentCalls := some ((pt.subagentCalls.getD []) ++ [{ placeholderCall c1 with result := some r, isError := some isErr }]) }
    { placeholderCall c1 with result := some r, isError := some isErr }
    hfind1' hfindcall2
  have hs2 := (processEvent_toolUseStart_parent now2 i2 t1 c1 n inp
    (processEvent now ⟨some t1, .toolResultStart i c1 r isErr⟩ s) ht1).trans hback
  rw [hs2, findToolBlockById_updateToolById _ t1 (fun t => { t with subagentCalls := some (mapFirstCall c1 (fun c => { c with name := n, input := inp, streamIndex := some i2 }) (t.subagentCalls.getD [])) }) (fun t => rfl)]
  have hfind1'' : findToolBlockById
      { (processEvent now ⟨some t1, .toolResultStart i c1 r isErr⟩ s) with
        streamIndexToToolId := setA (processEvent now ⟨some t1, .toolResultStart i c1 r isErr⟩ s).streamIndexToToolId i2 c1,
        childToolToParent := setA (processEvent now ⟨some t1, .toolResultStart i c1 r isErr⟩ s).childToolToParent c1 t1 } t1
      = some { pt with subagentCalls := some ((pt.subagentCalls.getD []) ++ [{ placeholderCall c1 with result := some r, isError := some isErr }]) } := hfind1
  rw [hfind1'']
  dsimp only [Option.map]
  refine ⟨_, rfl, ?_⟩
  rw [show mapFirstCall c1 (fun c => { c with name := n, input := inp, streamIndex := some i2 }) (({ pt with subagentCalls := some ((pt.subagentCalls.getD []) ++ [{ placeholderCall c1 with result := some r, isError := some isErr }]) } : ToolUseState).subagentCalls.getD []) = (pt.subagentCalls.getD []) ++ [{ placeholderCall c1 with name := n, input := inp, streamIndex := some i2, result := some r, isError := some isErr }] from mapFirstCall_append_of_none c1 _ _ _ hnosub rfl]

def ptC5 : ToolUseState :=
  { id := "task1", name := "Task", input := .obj [], streamIndex := 0, inputJson := some "" }

def c5Session : Session :=
  { mkSession "s5" 0 with
    isStreamingMessage := true,
    messages := [⟨"0", .assistant, .blocks [.toolUse ptC5], 0⟩] }

/-- Witness for C5: the spec's scenario — a tool result for unseen child
`c1` under parent `task1` synthesizes the placeholder before attaching the
result, and the later start for `c1` backfills it in place. -/
theorem placeholder_then_backfill_witness :
    getA c5Session.childToolToParent "c1" = none ∧
    ((∃ pt1, findToolBlockById
        (processEvent 5 ⟨some "task1", .toolResultStart 3 "c1" "out" false⟩ c5Session)
          "task1" = some pt1 ∧
      pt1.subagentCalls = some ((ptC5.subagentCalls.getD []) ++
        [{ placeholderCall "c1" with result := some "out", isError := some false }])) ∧
    getA (processEvent 5 ⟨some "task1", .toolResultStart 3 "c1" "out" false⟩
        c5Session).childToolToParent "c1" = some "task1" ∧
    (∃ pt2, findToolBlockById
        (processEvent 6 ⟨some "task1", .toolUseStart 4 "c1" "Bash" (.obj [("cmd", .str "ls")])⟩
          (processEvent 5 ⟨some "task1", .toolResultStart 3 "c1" "out" false⟩ c5Session))
          "task1" = some pt2 ∧
      pt2.subagentCalls = some ((ptC5.subagentCalls.getD []) ++
        [{ placeholderCall "c1" with name := "Bash", input := .obj [("cmd", .str "ls")],
                                     streamIndex := some 4,
                                     result := some "out", isError := some false }]))) :=
  ⟨rfl, placeholder_then_backfill 5 6 3 4 "task1" "c1" "Bash" "out"
    (.obj [("cmd", .str "ls")]) false c5Session ptC5
    (by decide) (by decide) rfl rfl rfl⟩

/-! ## C4: nested tool starts never create top-level segments -/

/-- The ids of the tool blocks of a block list. -/
def blockToolIds (bs : List ContentBlock) : List String :=
  bs.filterMap (fun b => (toolOf? b).map (·.id))

/-- The ids of a message's top-level tool segments. -/
def msgToolIds (m : MessageWire) : List String :=
  match m.content with
  | .blocks bs => blockToolIds bs
  | .str _ => []

/-- All ids appearing as top-level tool-invocation Content Segments of any
message of the session's Message Log. -/
def topToolIds (s : Session) : List String :=
  s.messages.flatMap msgToolIds

theorem blockToolIds_append (l1 l2 : List ContentBlock) :
    blockToolIds (l1 ++ l2) = blockToolIds l1 ++ blockToolIds l2 := by
  unfold blockToolIds
  exact List.filterMap_append l1 l2 _

theorem blockToolIds_mapFirstToolWhere (sel : ToolUseState → Bool)
    (f : ToolUseState → ToolUseState) (bs : List ContentBlock)
    (hid : ∀ t, (f t).id = t.id) :
    blockToolIds (mapFirstToolWhere sel f bs) = blockToolIds bs := by
  induction bs with
  | nil => rfl
  | cons b bs ih =>
    cases b with
    | toolUse tb =>
      by_cases hsel : sel tb = true
      · simp [mapFirstToolWhere, blockToolIds, toolOf?, hsel, hid]
      · simpa [mapFirstToolWhere, blockToolIds, toolOf?, hsel] using ih
    | text t => simpa [mapFirstToolWhere, blockToolIds, toolOf?] using ih
    | thinking a b c d e => simpa [mapFirstToolWhere, blockToolIds, toolOf?] using ih

theorem blockToolIds_appendThinkingDelta (i : Nat) (d : String) (bs : List ContentBlock) :
    blockToolIds (appendThinkingDelta i d bs) = blockToolIds bs := by
  induction bs with
  | nil => rfl
  | cons b bs ih =>
    cases b with
    | toolUse tb => simpa [appendThinkingDelta, blockToolIds, toolOf?] using ih
    | text t => simpa [appendThinkingDelta, blockToolIds, toolOf?] using ih
    | thinking a b c d' e =>
      by_cases hc : d' = some i ∧ e = false
      · simp [appendThinkingDelta, hc, blockToolIds, toolOf?]
      · simpa [appendThinkingDelta, hc, blockToolIds, toolOf?] using ih

theorem blockToolIds_completeFirstOpenThinking (now i : Nat) (bs : List ContentBlock) :
    blockToolIds (completeFirstOpenThinking now i bs) = blockToolIds bs := by
  induction bs with
  | nil => rfl
  | cons b bs ih =>
    cases b with
    | toolUse tb => simpa [completeFirstOpenThinking, blockToolIds, toolOf?] using ih
    | text t => simpa [completeFirstOpenThinking, blockToolIds, toolOf?] using ih
    | thinking a b c d' e =>
      by_cases hc : d' = some i ∧ e = false
      · simp [completeFirstOpenThinking, hc, blockToolIds, toolOf?]
      · simpa [completeFirstOpenThinking, hc, blockToolIds, toolOf?] using ih

theorem msgToolIds_promoteContent (m : MessageWire) :
    msgToolIds (promoteContent m) = msgToolIds m := by
  unfold promoteContent msgToolIds
  cases hc : m.content with
  | str c =>
    dsimp only
    split <;> simp [blockToolIds, toolOf?]
  | blocks bs =>
    dsimp only
    rw [hc]

/-- Session-level flat id list of a message list. -/
def flatMapIds (l : List MessageWire) : List String :=
  l.flatMap msgToolIds

theorem mem_flatMapIds_reverse (l : List MessageWire) (c : String) :
    c ∈ flatMapIds l.reverse ↔ c ∈ flatMapIds l := by
  unfold flatMapIds
  rw [List.mem_flatMap, List.mem_flatMap]
  constructor
  · rintro ⟨m, hm, hc⟩
    exact ⟨m, List.mem_reverse.mp hm, hc⟩
  · rintro ⟨m, hm, hc⟩
    exact ⟨m, List.mem_reverse.mpr hm, hc⟩

theorem flatMapIds_updateToolRev (tid : String) (f : ToolUseState → ToolUseState)
    (hid : ∀ t, (f t).id = t.id) (l : List MessageWire) :
    flatMapIds (updateToolRev tid f l) = flatMapIds l := by
  induction l with
  | nil => rfl
  | cons m rest ih =>
    unfold updateToolRev
    cases hm : msgTool? m tid with
    | none =>
      unfold flatMapIds at ih ⊢
      simp only [List.flatMap_cons]
      rw [ih]
    | some tb =>
      unfold flatMapIds
      simp only [List.flatMap_cons]
      congr 1
      cases hc : m.content with
      | blocks bs =>
        dsimp only
        unfold msgToolIds
        rw [hc]
        dsimp only
        exact blockToolIds_mapFirstToolWhere _ f bs hid
      | str c => dsimp only

theorem mem_topToolIds_updateToolById (s : Session) (tid : String)
    (f : ToolUseState → ToolUseState) (hid : ∀ t, (f t).id = t.id) (c : String) :
    c ∈ topToolIds (updateToolById s tid f) ↔ c ∈ topToolIds s := by
  show c ∈ flatMapIds (updateToolRev tid f s.messages.reverse).reverse ↔
    c ∈ flatMapIds s.messages
  rw [mem_flatMapIds_reverse, flatMapIds_updateToolRev tid f hid,
    mem_flatMapIds_reverse]

theorem flatMapIds_modifyLastList (f : MessageWire → MessageWire)
    (hf : ∀ m, msgToolIds (f m) = msgToolIds m) (l : List MessageWire) :
    flatMapIds (modifyLastList f l) = flatMapIds l := by
  induction l with
  | nil => rfl
  | cons m rest ih =>
    cases rest with
    | nil =>
      show flatMapIds [f m] = flatMapIds [m]
      simp [flatMapIds, hf]
    | cons m2 t =>
      show msgToolIds m ++ flatMapIds (modifyLastList f (m2 :: t))
        = msgToolIds m ++ flatMapIds (m2 :: t)
      rw [ih]

theorem topToolIds_modifyLast (f : MessageWire → MessageWire)
    (hf : ∀ m, msgToolIds (f m) = msgToolIds m) (s : Session) :
    topToolIds (modifyLast f s) = topToolIds s :=
  flatMapIds_modifyLastList f hf s.messages

theorem topToolIds_ensureAssistantMessage (now : Nat) (s : Session) :
    topToolIds (ensureAssistantMessage now s) = topToolIds s := by
  unfold ensureAssistantMessage
  cases hl : s.messages.getLast? with
  | none =>
    show flatMapIds (s.messages ++ [_]) = flatMapIds s.messages
    unfold flatMapIds
    simp [msgToolIds]
  | some last =>
    dsimp only
    split
    · rfl
    · show flatMapIds (s.messages ++ [_]) = flatMapIds s.messages
      unfold flatMapIds
      simp [msgToolIds]

/-- After `modifyLast` with a function that appends one tool id, membership
grows by at most that id. -/
theorem mem_topToolIds_modifyLast_push (f : MessageWire → MessageWire) (newId : String)
    (hf : ∀ m, msgToolIds (f m) = msgToolIds m ++ [newId]) (s : Session) (c : String)
    (hc : c ∈ topToolIds (modifyLast f s)) : c ∈ topToolIds s ∨ c = newId := by
  revert hc
  show c ∈ flatMapIds (modifyLastList f s.messages) → c ∈ flatMapIds s.messages ∨ c = newId
  induction s.messages with
  | nil => intro hc; cases hc
  | cons m rest ih =>
    cases rest with
    | nil =>
      intro hc
      replace hc : c ∈ msgToolIds (f m) ++ ([] : List String) := hc
      rw [hf] at hc
      simp only [List.append_nil] at hc
      rcases List.mem_append.mp hc with h | h
      · exact Or.inl (show c ∈ msgToolIds m ++ flatMapIds ([] : List MessageWire)
          from List.mem_append.mpr (Or.inl h))
      · exact Or.inr (by simpa using h)
    | cons m2 t =>
      intro hc
      replace hc : c ∈ msgToolIds m ++ flatMapIds (modifyLastList f (m2 :: t)) := hc
      rcases List.mem_append.mp hc with h | h
      · exact Or.inl (show c ∈ msgToolIds m ++ flatMapIds (m2 :: t)
          from List.mem_append.mpr (Or.inl h))
      · rcases ih h with h' | h'
        · exact Or.inl (show c ∈ msgToolIds m ++ flatMapIds (m2 :: t)
            from List.mem_append.mpr (Or.inr h'))
        · exact Or.inr h'

theorem blockToolIds_cons (b : ContentBlock) (bs : List ContentBlock) :
    blockToolIds (b :: bs) = blockToolIds [b] ++ blockToolIds bs := by
  have := blockToolIds_append [b] bs
  simpa using this

theorem blockToolIds_dropLast_text (bs : List ContentBlock) (t u : String)
    (h : bs.getLast? = some (.text t)) :
    blockToolIds (bs.dropLast ++ [ContentBlock.text u]) = blockToolIds bs := by
  induction bs with
  | nil => cases h
  | cons b rest ih =>
    cases rest with
    | nil =>
      simp only [List.getLast?_singleton, Option.some.injEq] at h
      subst h
      simp [blockToolIds, toolOf?]
    | cons b2 t2 =>
      have h' : (b2 :: t2).getLast? = some (.text t) := by
        rwa [List.getLast?_cons_cons] at h
      show blockToolIds (b :: ((b2 :: t2).dropLast ++ [ContentBlock.text u]))
        = blockToolIds (b :: (b2 :: t2))
      rw [blockToolIds_cons, blockToolIds_cons b (b2 :: t2), ih h']

/-- Uniform shape of the streaming handlers: promote the last message's
content and modify its block list. -/
theorem msgToolIds_promote_blocksMod (m : MessageWire)
    (g : List ContentBlock → List ContentBlock)
    (hg : ∀ bs, blockToolIds (g bs) = blockToolIds bs) :
    msgToolIds (match (promoteContent m).content with
      | MsgContent.blocks bs => { promoteContent m with content := MsgContent.blocks (g bs) }
      | MsgContent.str _ => promoteContent m) = msgToolIds m := by
  cases hc : (promoteContent m).content with
  | blocks bs =>
    dsimp only
    rw [← msgToolIds_promoteContent m]
    conv_rhs => rw [show msgToolIds (promoteContent m)
      = blockToolIds bs from by unfold msgToolIds; rw [hc]]
    show blockToolIds (g bs) = blockToolIds bs
    exact hg bs
  | str c =>
    dsimp only
    exact msgToolIds_promoteContent m

theorem msgToolIds_promote_blocksMod_push (m : MessageWire)
    (g : List ContentBlock → List ContentBlock) (newId : String)
    (hg : ∀ bs, blockToolIds (g bs) = blockToolIds bs ++ [newId]) :
    msgToolIds (match (promoteContent m).content with
      | MsgContent.blocks bs => { promoteContent m with content := MsgContent.blocks (g bs) }
      | MsgContent.str _ => promoteContent m)
    = msgToolIds m ++ [newId] := by
  cases hc : (promoteContent m).content with
  | blocks bs =>
    dsimp only
    rw [← msgToolIds_promoteContent m]
    conv_rhs => rw [show msgToolIds (promoteContent m)
      = blockToolIds bs from by unfold msgToolIds; rw [hc]]
    show blockToolIds (g bs) = blockToolIds bs ++ [newId]
    exact hg bs
  | str c =>
    exfalso
    unfold promoteContent at hc
    cases hm : m.content with
    | str c0 => rw [hm] at hc; simp at hc
    | blocks bs0 => rw [hm] at hc; simp only at hc; rw [hm] at hc; cases hc

theorem topToolIds_handleThinkingStart (now i : Nat) (s : Session) :
    topToolIds (handleThinkingStart now i s) = topToolIds s := by
  unfold handleThinkingStart
  rw [topToolIds_modifyLast _ (fun m => msgToolIds_promote_blocksMod m _
    (fun bs => by rw [blockToolIds_append]; simp [blockToolIds, toolOf?])),
    topToolIds_ensureAssistantMessage]

theorem topToolIds_handleThinkingChunk (now i : Nat) (d : String) (s : Session) :
    topToolIds (handleThinkingChunk now i d s) = topToolIds s := by
  unfold handleThinkingChunk
  rw [topToolIds_modifyLast _ (fun m => msgToolIds_promote_blocksMod m _
    (fun bs => blockToolIds_appendThinkingDelta i d bs)),
    topToolIds_ensureAssistantMessage]

theorem applyInputDelta_id (d : String) (t : ToolUseState) :
    (applyInputDelta d t).id = t.id := by
  unfold applyInputDelta
  dsimp only
  cases parsePartialJson (t.inputJson.getD "" ++ d) <;> rfl

theorem topToolIds_handleToolInputDelta (now i : Nat) (tid d : String) (s : Session) :
    topToolIds (handleToolInputDelta now i tid d s) = topToolIds s := by
  unfold handleToolInputDelta
  rw [topToolIds_modifyLast _ (fun m => msgToolIds_promote_blocksMod m _
    (fun bs => blockToolIds_mapFirstToolWhere _ _ bs (applyInputDelta_id d))),
    topToolIds_ensureAssistantMessage]

theorem topToolIds_handleContentBlockStop (now i : Nat) (tid : Option String) (s : Session) :
    topToolIds (handleContentBlockStop now i tid s) = topToolIds s := by
  unfold handleContentBlockStop
  rw [topToolIds_modifyLast _ ?hf, topToolIds_ensureAssistantMessage]
  case hf =>
    intro m
    dsimp only
    cases hc : (promoteContent m).content with
    | blocks bs =>
      dsimp only
      rw [← msgToolIds_promoteContent m]
      conv_rhs => rw [show msgToolIds (promoteContent m)
        = blockToolIds bs from by unfold msgToolIds; rw [hc]]
      split
      · exact blockToolIds_completeFirstOpenThinking now i bs
      · exact blockToolIds_mapFirstToolWhere _ _ bs freezeToolInput_id
    | str c =>
      dsimp only
      exact msgToolIds_promoteContent m

theorem topToolIds_appendTextChunk (now : Nat) (chunk : String) (s : Session) :
    topToolIds (appendTextChunk now chunk s) = topToolIds s := by
  unfold appendTextChunk
  rw [topToolIds_modifyLast _ ?hf, topToolIds_ensureAssistantMessage]
  case hf =>
    intro m
    cases hc : m.content with
    | str c =>
      dsimp only
      unfold msgToolIds
      rw [hc]
    | blocks bs =>
      dsimp only
      cases hl : bs.getLast? with
      | none =>
        dsimp only
        unfold msgToolIds
        rw [hc]
        dsimp only
        rw [blockToolIds_append]
        simp [blockToolIds, toolOf?]
      | some lastB =>
        cases lastB with
        | text t =>
          dsimp only
          unfold msgToolIds
          rw [hc]
          dsimp only
          exact blockToolIds_dropLast_text bs t (t ++ chunk) hl
        | toolUse tb =>
          dsimp only
          unfold msgToolIds
          rw [hc]
          dsimp only
          rw [blockToolIds_append]
          simp [blockToolIds, toolOf?]
        | thinking a b c2 d e =>
          dsimp only
          unfold msgToolIds
          rw [hc]
          dsimp only
          rw [blockToolIds_append]
          simp [blockToolIds, toolOf?]

theorem mem_top_handleToolUseStart (now : Nat) (id nm : String) (inp : Json) (i : Nat)
    (s : Session) (c : String)
    (hc : c ∈ topToolIds (handleToolUseStart now id nm inp i s)) :
    c ∈ topToolIds s ∨ c = id := by
  unfold handleToolUseStart at hc
  have h2 := mem_topToolIds_modifyLast_push _ id
    (fun m => msgToolIds_promote_blocksMod_push m _ id
      (fun bs => by rw [blockToolIds_append]; simp [blockToolIds, toolOf?]))
    (ensureAssistantMessage now s) c hc
  rwa [topToolIds_ensureAssistantMessage] at h2

theorem mem_top_handleSubagentToolUseStart (p : String) (tool : ToolPayload)
    (s : Session) (c : String) :
    c ∈ topToolIds (handleSubagentToolUseStart p tool s) ↔ c ∈ topToolIds s := by
  unfold handleSubagentToolUseStart
  split
  · exact Iff.rfl
  · split
    · refine (mem_topToolIds_updateToolById _ _ _ ?_ c); intro t; rfl
    · refine (mem_topToolIds_updateToolById _ _ _ ?_ c); intro t; rfl

theorem mem_top_ensureSubagentToolPlaceholder (p tid : String) (s : Session) (c : String) :
    c ∈ topToolIds (ensureSubagentToolPlaceholder p tid s) ↔ c ∈ topToolIds s := by
  unfold ensureSubagentToolPlaceholder
  split
  · exact Iff.rfl
  · split
    · exact Iff.rfl
    · refine (mem_topToolIds_updateToolById _ _ _ ?_ c); intro t; rfl

theorem mem_top_handleSubagentToolInputDelta (p tid d : String) (s : Session) (c : String) :
    c ∈ topToolIds (handleSubagentToolInputDelta p tid d s) ↔ c ∈ topToolIds s := by
  unfold handleSubagentToolInputDelta
  split
  · exact Iff.rfl
  · split
    · exact Iff.rfl
    · split
      · exact Iff.rfl
      · refine (mem_topToolIds_updateToolById _ _ _ ?_ c); intro t; rfl

theorem mem_top_finalizeSubagentToolInput (p tid : String) (s : Session) (c : String) :
    c ∈ topToolIds (finalizeSubagentToolInput p tid s) ↔ c ∈ topToolIds s := by
  unfold finalizeSubagentToolInput
  split
  · exact Iff.rfl
  · split
    · exact Iff.rfl
    · split
      · exact Iff.rfl
      · split
        · exact Iff.rfl
        · split
          · exact Iff.rfl
          · refine (mem_topToolIds_updateToolById _ _ _ ?_ c); intro t; rfl

theorem mem_top_setToolResult (tid content : String) (isErr : Option Bool)
    (s : Session) (c : String) :
    c ∈ topToolIds (setToolResult tid content isErr s) ↔ c ∈ topToolIds s := by
  unfold setToolResult
  split
  · exact Iff.rfl
  · refine (mem_topToolIds_updateToolById _ _ _ ?_ c); intro t; cases isErr <;> rfl

theorem mem_top_handleSubagentToolResultStart (tid content : String) (isErr : Bool)
    (s s' : Session) (c : String)
    (h : handleSubagentToolResultStart tid content isErr s = some s') :
    c ∈ topToolIds s' ↔ c ∈ topToolIds s := by
  unfold handleSubagentToolResultStart at h
  repeat' split at h
  all_goals cases h
  refine (mem_topToolIds_updateToolById _ _ _ ?_ c); intro t; rfl

theorem mem_top_handleSubagentToolResultComplete (tid content : String)
    (isErr : Option Bool) (s s' : Session) (c : String)
    (h : handleSubagentToolResultComplete tid content isErr s = some s') :
    c ∈ topToolIds s' ↔ c ∈ topToolIds s := by
  unfold handleSubagentToolResultComplete at h
  repeat' split at h
  all_goals cases h
  all_goals refine (mem_topToolIds_updateToolById _ _ _ ?_ c)
  all_goals intro t
  all_goals rfl

theorem mem_top_appendSubagentToolResultDelta (tid d : String) (s s' : Session) (c : String)
    (h : appendSubagentToolResultDelta tid d s = some s') :
    c ∈ topToolIds s' ↔ c ∈ topToolIds s := by
  unfold appendSubagentToolResultDelta at h
  repeat' split at h
  all_goals cases h
  refine (mem_topToolIds_updateToolById _ _ _ ?_ c); intro t; rfl

theorem mem_top_finalizeSubagentToolResult (tid : String) (s s' : Session) (c : String)
    (h : finalizeSubagentToolResult tid s = some s') :
    c ∈ topToolIds s' ↔ c ∈ topToolIds s := by
  unfold finalizeSubagentToolResult at h
  repeat' split at h
  all_goals cases h
  refine (mem_topToolIds_updateToolById _ _ _ ?_ c); intro t; rfl

theorem mem_top_appendToolResultDelta (tid d : String) (s : Session) (c : String) :
    c ∈ topToolIds (appendToolResultDelta tid d s) ↔ c ∈ topToolIds s := by
  unfold appendToolResultDelta
  split
  · rename_i s' h
    exact mem_top_appendSubagentToolResultDelta tid d s s' c h
  · split
    · exact Iff.rfl
    · refine (mem_topToolIds_updateToolById _ _ _ ?_ c); intro t; rfl

theorem mem_top_handleToolResultStart (tid content : String) (isErr : Bool)
    (s : Session) (c : String) :
    c ∈ topToolIds (handleToolResultStart tid content isErr s) ↔ c ∈ topToolIds s := by
  unfold handleToolResultStart
  split
  · rename_i s' h
    exact mem_top_handleSubagentToolResultStart tid content isErr s s' c h
  · exact mem_top_setToolResult tid content (some isErr) s c

theorem mem_top_handleToolResultComplete (tid content : String) (isErr : Option Bool)
    (s : Session) (c : String) :
    c ∈ topToolIds (handleToolResultComplete tid content isErr s) ↔ c ∈ topToolIds s := by
  unfold handleToolResultComplete
  split
  · rename_i s' h
    exact mem_top_handleSubagentToolResultComplete tid content isErr s s' c h
  · exact mem_top_setToolResult tid content isErr s c

theorem mem_top_appendToolResultContent (tid content : String) (isErr : Option Bool)
    (s : Session) (c : String) :
    c ∈ topToolIds (appendToolResultContent tid content isErr s).1 ↔ c ∈ topToolIds s := by
  unfold appendToolResultContent
  exact mem_top_setToolResult tid _ isErr s c

/-- One reconciliation step can only add a top-level tool id through an
untagged (parent-less) tool-invocation start with that id. -/
theorem mem_top_processEvent (now : Nat) (e : Ev) (s : Session) (c : String)
    (hc : c ∈ topToolIds (processEvent now e s)) :
    c ∈ topToolIds s ∨
      (∃ i nm inp, e.ev = .toolUseStart i c nm inp ∧ truthyId e.parentToolUseId = none) := by
  obtain ⟨parent, ev⟩ := e
  cases ev with
  | textDelta d =>
    unfold processEvent at hc
    dsimp only at hc
    revert hc
    cases truthyId parent with
    | some p =>
      intro hc
      exact Or.inl ((mem_top_appendToolResultDelta p d s c).mp hc)
    | none =>
      intro hc
      rw [topToolIds_appendTextChunk] at hc
      exact Or.inl hc
  | thinkingDelta i d =>
    unfold processEvent at hc
    rw [topToolIds_handleThinkingChunk] at hc
    exact Or.inl hc
  | inputJsonDelta i d =>
    unfold processEvent at hc
    dsimp only at hc
    revert hc
    cases truthyId parent with
    | some p =>
      intro hc
      exact Or.inl ((mem_top_handleSubagentToolInputDelta p _ d s c).mp hc)
    | none =>
      intro hc
      rw [topToolIds_handleToolInputDelta] at hc
      exact Or.inl hc
  | thinkingStart i =>
    unfold processEvent at hc
    rw [topToolIds_handleThinkingStart] at hc
    exact Or.inl hc
  | toolUseStart i id nm inp =>
    unfold processEvent at hc
    dsimp only at hc
    revert hc
    cases hp : truthyId parent with
    | some p =>
      intro hc
      have h1 := (mem_top_handleSubagentToolUseStart p _ _ c).mp hc
      exact Or.inl h1
    | none =>
      intro hc
      dsimp only at hc
      rcases mem_top_handleToolUseStart now id nm inp i _ c hc with h | h
      · exact Or.inl h
      · subst h
        exact Or.inr ⟨i, nm, inp, rfl, rfl⟩
  | toolResultStart i tid content isErr =>
    unfold processEvent at hc
    dsimp only at hc
    revert hc
    split
    · intro hc
      exact Or.inl hc
    · cases truthyId ((getA s.childToolToParent tid).orElse (fun _ => parent)) with
      | some p =>
        dsimp only
        split
        · intro hc
          have h1 := (mem_top_handleToolResultStart tid content isErr _ c).mp hc
          exact Or.inl h1
        · intro hc
          have h1 := (mem_top_handleToolResultStart tid content isErr _ c).mp hc
          have h2 := (mem_top_ensureSubagentToolPlaceholder p tid _ c).mp h1
          exact Or.inl h2
      | none =>
        intro hc
        have h1 := (mem_top_handleToolResultStart tid content isErr _ c).mp hc
        exact Or.inl h1
  | blockStop i =>
    unfold processEvent at hc
    dsimp only at hc
    revert hc
    cases truthyId parent with
    | some p =>
      cases truthyId (getA s.streamIndexToToolId i) with
      | some tid =>
        dsimp only
        cases hres : getA (finalizeSubagentToolInput p tid s).toolResultIndexToId i with
        | some toolResultId =>
          dsimp only
          split
          · rename_i s2 h2
            intro hc
            have := (mem_top_finalizeSubagentToolResult toolResultId _ s2 c h2).mp hc
            exact Or.inl ((mem_top_finalizeSubagentToolInput p tid s c).mp this)
          · intro hc
            exact Or.inl ((mem_top_finalizeSubagentToolInput p tid s c).mp hc)
        | none =>
          intro hc
          exact Or.inl ((mem_top_finalizeSubagentToolInput p tid s c).mp hc)
      | none =>
        dsimp only
        cases hres : getA s.toolResultIndexToId i with
        | some toolResultId =>
          dsimp only
          split
          · rename_i s2 h2
            intro hc
            exact Or.inl ((mem_top_finalizeSubagentToolResult toolResultId _ s2 c h2).mp hc)
          · intro hc
            exact Or.inl hc
        | none =>
          intro hc
          exact Or.inl hc
    | none =>
      intro hc
      rw [topToolIds_handleContentBlockStop] at hc
      exact Or.inl hc
  | msgSubagentToolUse id nm inp =>
    unfold processEvent at hc
    dsimp only at hc
    revert hc
    cases truthyId parent with
    | some p =>
      intro hc
      have h1 := (mem_top_handleSubagentToolUseStart p _ _ c).mp hc
      exact Or.inl h1
    | none =>
      intro hc
      exact Or.inl hc
  | msgAssistantText text =>
    unfold processEvent at hc
    dsimp only at hc
    revert hc
    cases truthyId parent with
    | some p =>
      dsimp only
      split
      · intro hc
        exact Or.inl hc
      · intro hc
        have h1 := (mem_top_appendToolResultContent p text none s c).mp hc
        exact Or.inl h1
    | none =>
      intro hc
      exact Or.inl hc
  | msgToolResultComplete tid content isErr =>
    unfold processEvent at hc
    dsimp only at hc
    revert hc
    cases truthyId ((getA s.childToolToParent tid).orElse (fun _ => parent)) with
    | some p =>
      dsimp only
      split
      · intro hc
        have h1 := (mem_top_handleToolResultComplete tid content isErr _ c).mp hc
        exact Or.inl h1
      · intro hc
        have h1 := (mem_top_handleToolResultComplete tid content isErr _ c).mp hc
        have h2 := (mem_top_ensureSubagentToolPlaceholder p tid _ c).mp h1
        exact Or.inl h2
    | none =>
      intro hc
      have h1 := (mem_top_handleToolResultComplete tid content isErr _ c).mp hc
      exact Or.inl h1

/-- C4: a tool-invocation start that carries a (truthy) parent tool id never
appears as a top-level Content Segment of any message of the Message Log:
processing any event stream in which every tool-invocation start for id `c`
is tagged with a parent leaves `c` out of the top-level tool ids. -/
theorem nested_start_never_top_level (now : Nat) (evs : List Ev) (s0 : Session)
    (c : String) (hinit : c ∉ topToolIds s0)
    (htagged : ∀ e ∈ evs, ∀ i nm inp, e.ev = .toolUseStart i c nm inp →
      truthyId e.parentToolUseId ≠ none) :
    c ∉ topToolIds (processEvents now evs s0) := by
  induction evs generalizing s0 with
  | nil => exact hinit
  | cons e rest ih =>
    show c ∉ topToolIds (processEvents now rest (processEvent now e s0))
    apply ih
    · intro hc
      rcases mem_top_processEvent now e s0 c hc with h | ⟨i, nm, inp, hev, hfalsy⟩
      · exact hinit h
      · exact htagged e (by simp) i nm inp hev hfalsy
    · intro e' he' i nm inp hev
      exact htagged e' (by simp [he']) i nm inp hev

def c4Session : Session := mkSession "s4" 0

/-- Witness for C4: a nested tool start (parent `task1`), its argument
delta, and its result leave the child id out of the top-level segments. -/
theorem nested_start_never_top_level_witness :
    ("c1" ∉ topToolIds c4Session) ∧
    "c1" ∉ topToolIds (processEvents 5
      [⟨none, .toolUseStart 0 "task1" "Task" (.obj [])⟩,
       ⟨some "task1", .toolUseStart 1 "c1" "Bash" (.obj [])⟩,
       ⟨some "task1", .inputJsonDelta 1 "\x7b\x7d"⟩,
       ⟨some "task1", .toolResultStart 2 "c1" "done" false⟩] c4Session) := by
  constructor
  · decide
  · exact nested_start_never_top_level 5 _ c4Session "c1" (by decide)
      (by
        intro e he i nm inp hev
        simp only [List.mem_cons, List.not_mem_nil, or_false] at he
        rcases he with rfl | rfl | rfl | rfl
        · simp at hev
        · decide
        · cases hev
        · cases hev)

/-! ## C6: argument-delta routing through the stream-index map -/

/-- The argument-streaming fragment of the top-level event alphabet: block
starts for tool invocations and raw-argument deltas, both untagged (no
parent tool id). -/
inductive ArgEv where
  | start (index : Nat) (id name : String) (input : Json)
  | delta (index : Nat) (d : String)
deriving Repr

def argEvToEv : ArgEv → Ev
  | .start i id nm inp => ⟨none, .toolUseStart i id nm inp⟩
  | .delta i d => ⟨none, .inputJsonDelta i d⟩

def startIds : List ArgEv → List String
  | [] => []
  | .start _ id _ _ :: rest => id :: startIds rest
  | .delta _ _ :: rest => startIds rest

/-- The deltas addressed to tool `t` in emission order: a delta is addressed
to `t` exactly when the stream-index map at its emission time sends its
index to `t` (with the source's `?? ''` default for unmapped indices). -/
def addressedDeltas (t : String) : List (Nat × String) → List ArgEv → List String
  | _, [] => []
  | m, .start i id _ _ :: rest => addressedDeltas t (setA m i id) rest
  | m, .delta i d :: rest =>
    if (getA m i).getD "" = t then d :: addressedDeltas t m rest
    else addressedDeltas t m rest

/-- `mapFirstToolWhere` restricted to a pure tool-state list. -/
def mapFirstState (sel : ToolUseState → Bool) (f : ToolUseState → ToolUseState) :
    List ToolUseState → List ToolUseState
  | [] => []
  | tb :: rest => if sel tb then f tb :: rest else tb :: mapFirstState sel f rest

/-- The abstract routing machine: the stream-index map plus the ordered list
of top-level tool records. -/
def argStep : ArgEv → List (Nat × String) × List ToolUseState →
    List (Nat × String) × List ToolUseState
  | .start i id nm inp, (m, L) =>
    (setA m i id, L ++ [{ id := id, name := nm, input := inp, streamIndex := i,
                          inputJson := some "" }])
  | .delta i d, (m, L) =>
    (m, mapFirstState (fun tb => tb.id == (getA m i).getD "") (applyInputDelta d) L)

def argRun (evs : List ArgEv) (st : List (Nat × String) × List ToolUseState) :
    List (Nat × String) × List ToolUseState :=
  evs.foldl (fun st e => argStep e st) st

/-- The session shape maintained while a turn streams argument events: a
single live assistant message whose blocks are exactly the tool records. -/
def c6State (b : Session) (m : List (Nat × String)) (L : List ToolUseState)
    (mid : String) (ts : Nat) : Session :=
  { b with messages := [⟨mid, .assistant, .blocks (L.map ContentBlock.toolUse), ts⟩],
           isStreamingMessage := true, streamIndexToToolId := m }

theorem mapFirstToolWhere_map_toolUse (sel : ToolUseState → Bool)
    (f : ToolUseState → ToolUseState) (L : List ToolUseState) :
    mapFirstToolWhere sel f (L.map ContentBlock.toolUse)
      = (mapFirstState sel f L).map ContentBlock.toolUse := by
  induction L with
  | nil => rfl
  | cons tb rest ih =>
    show (if sel tb then ContentBlock.toolUse (f tb) :: rest.map ContentBlock.toolUse else ContentBlock.toolUse tb :: mapFirstToolWhere sel f (rest.map ContentBlock.toolUse)) = List.map ContentBlock.toolUse (if sel tb then f tb :: rest else tb :: mapFirstState sel f rest)
    split
    · rfl
    · rw [List.map_cons, ih]

theorem findFirstToolWhere_map_toolUse (sel : ToolUseState → Bool)
    (L : List ToolUseState) :
    findFirstToolWhere sel (L.map ContentBlock.toolUse) = L.find? sel := by
  induction L with
  | nil => rfl
  | cons tb rest ih =>
    show (if sel tb then some tb else findFirstToolWhere sel (rest.map ContentBlock.toolUse)) = List.find? sel (tb :: rest)
    by_cases h : sel tb = true
    · rw [if_pos h, List.find?_cons_of_pos _ h]
    · rw [if_neg h, List.find?_cons_of_neg _ (by simpa using h), ih]

theorem processEvent_argEv (now : Nat) (e : ArgEv) (b : Session)
    (m : List (Nat × String)) (L : List ToolUseState) (mid : String) (ts : Nat) :
    processEvent now (argEvToEv e) (c6State b m L mid ts)
      = c6State b (argStep e (m, L)).1 (argStep e (m, L)).2 mid ts := by
  cases e with
  | start i id nm inp =>
    show processEvent now ⟨none, .toolUseStart i id nm inp⟩ (c6State b m L mid ts) = _
    unfold processEvent
    dsimp only [truthyId]
    unfold handleToolUseStart ensureAssistantMessage
    dsimp only [c6State]
    simp only [List.getLast?_singleton]
    rw [if_pos ⟨True.intro, True.intro⟩]
    unfold modifyLast modifyLastList promoteContent
    dsimp only [argStep]
    simp only [List.map_append]
    rfl
  | delta i d =>
    show processEvent now ⟨none, .inputJsonDelta i d⟩ (c6State b m L mid ts) = _
    unfold processEvent
    dsimp only [truthyId]
    unfold handleToolInputDelta ensureAssistantMessage
    dsimp only [c6State]
    simp only [List.getLast?_singleton]
    rw [if_pos ⟨True.intro, True.intro⟩]
    unfold modifyLast modifyLastList promoteContent
    dsimp only [argStep]
    rw [mapFirstToolWhere_map_toolUse]

theorem processEvents_argRun (now : Nat) (evs : List ArgEv) (b : Session)
    (m : List (Nat × String)) (L : List ToolUseState) (mid : String) (ts : Nat) :
    processEvents now (evs.map argEvToEv) (c6State b m L mid ts)
      = c6State b (argRun evs (m, L)).1 (argRun evs (m, L)).2 mid ts := by
  induction evs generalizing m L with
  | nil => rfl
  | cons e rest ih =>
    show processEvents now (argEvToEv e :: rest.map argEvToEv) (c6State b m L mid ts) = _
    unfold processEvents
    rw [List.foldl_cons]
    show processEvents now (rest.map argEvToEv)
      (processEvent now (argEvToEv e) (c6State b m L mid ts)) = _
    rw [processEvent_argEv]
    rw [ih]
    rfl

theorem processEvent_argInit (now : Nat) (sid : String) (cr : Nat) (e : ArgEv) :
    processEvent now (argEvToEv e) (mkSession sid cr)
      = c6State { mkSession sid cr with messageSequence := 1 }
          (argStep e ([], [])).1 (argStep e ([], [])).2 (toString 0) now := by
  cases e with
  | start i id nm inp =>
    show processEvent now ⟨none, .toolUseStart i id nm inp⟩ (mkSession sid cr) = _
    unfold processEvent
    dsimp only [truthyId]
    unfold handleToolUseStart ensureAssistantMessage
    dsimp only [mkSession]
    rfl
  | delta i d =>
    show processEvent now ⟨none, .inputJsonDelta i d⟩ (mkSession sid cr) = _
    unfold processEvent
    dsimp only [truthyId]
    unfold handleToolInputDelta ensureAssistantMessage
    dsimp only [mkSession]
    rfl

/-- In-order concatenation of a delta list. -/
def joinAll : List String → String
  | [] => ""
  | s :: rest => s ++ joinAll rest

theorem applyInputDelta_inputJson (d : String) (tb : ToolUseState) :
    (applyInputDelta d tb).inputJson = some (tb.inputJson.getD "" ++ d) := by
  unfold applyInputDelta
  dsimp only
  cases parsePartialJson (tb.inputJson.getD "" ++ d) <;> rfl

theorem mapFirstState_noT (sel : ToolUseState → Bool) (f : ToolUseState → ToolUseState)
    (hf : ∀ x, (f x).id = x.id) (t : String) :
    ∀ L : List ToolUseState, (∀ x ∈ L, x.id ≠ t) → ∀ x ∈ mapFirstState sel f L, x.id ≠ t := by
  intro L
  induction L with
  | nil =>
    intro _ x hx
    cases hx
  | cons tb rest ih =>
    intro h x hx
    simp only [mapFirstState] at hx
    split at hx
    · rcases List.mem_cons.mp hx with rfl | hx'
      · rw [hf tb]
        exact h tb (List.mem_cons_self tb rest)
      · exact h x (List.mem_cons_of_mem tb hx')
    · rcases List.mem_cons.mp hx with rfl | hx'
      · exact h x (List.mem_cons_self x rest)
      · exact ih (fun y hy => h y (List.mem_cons_of_mem tb hy)) x hx'

theorem mapFirstState_hit (sel : ToolUseState → Bool) (f : ToolUseState → ToolUseState)
    (tb : ToolUseState) (L2 : List ToolUseState) (hsel : sel tb = true) :
    ∀ L1 : List ToolUseState, (∀ x ∈ L1, sel x = false) →
      mapFirstState sel f (L1 ++ tb :: L2) = L1 ++ f tb :: L2 := by
  intro L1
  induction L1 with
  | nil =>
    intro _
    show (if sel tb = true then f tb :: L2 else tb :: mapFirstState sel f L2)
      = [] ++ f tb :: L2
    rw [if_pos hsel]
    rfl
  | cons a L1' ih =>
    intro h1
    have ha : sel a = false := h1 a (List.mem_cons_self a L1')
    show (if sel a = true then f a :: (L1' ++ tb :: L2)
          else a :: mapFirstState sel f (L1' ++ tb :: L2)) = (a :: L1') ++ f tb :: L2
    rw [if_neg (by simp [ha]), ih (fun x hx => h1 x (List.mem_cons_of_mem a hx))]
    rfl

theorem mapFirstState_append_mid (sel : ToolUseState → Bool)
    (f : ToolUseState → ToolUseState) (t : String) (hf : ∀ x, (f x).id = x.id)
    (tb : ToolUseState) (L2 : List ToolUseState) (hsel : sel tb = false) :
    ∀ L1 : List ToolUseState, (∀ x ∈ L1, x.id ≠ t) →
      ∃ L1' L2', mapFirstState sel f (L1 ++ tb :: L2) = L1' ++ tb :: L2' ∧
        (∀ x ∈ L1', x.id ≠ t) ∧ (L2' = L2 ∨ L2' = mapFirstState sel f L2) := by
  intro L1
  induction L1 with
  | nil =>
    intro _
    refine ⟨[], mapFirstState sel f L2, ?_, by simp, Or.inr rfl⟩
    show (if sel tb = true then f tb :: L2 else tb :: mapFirstState sel f L2)
      = [] ++ tb :: mapFirstState sel f L2
    rw [if_neg (by simp [hsel])]
    rfl
  | cons a L1' ih =>
    intro h1
    by_cases ha : sel a = true
    · refine ⟨f a :: L1', L2, ?_, ?_, Or.inl rfl⟩
      · show (if sel a = true then f a :: (L1' ++ tb :: L2)
              else a :: mapFirstState sel f (L1' ++ tb :: L2)) = (f a :: L1') ++ tb :: L2
        rw [if_pos ha]
        rfl
      · intro x hx
        rcases List.mem_cons.mp hx with rfl | hx'
        · rw [hf a]
          exact h1 a (List.mem_cons_self a L1')
        · exact h1 x (List.mem_cons_of_mem a hx')
    · obtain ⟨L1'', L2', heq, hn, hor⟩ := ih (fun x hx => h1 x (List.mem_cons_of_mem a hx))
      refine ⟨a :: L1'', L2', ?_, ?_, hor⟩
      · show (if sel a = true then f a :: (L1' ++ tb :: L2)
              else a :: mapFirstState sel f (L1' ++ tb :: L2)) = (a :: L1'') ++ tb :: L2'
        rw [if_neg ha, heq]
        rfl
      · intro x hx
        rcases List.mem_cons.mp hx with rfl | hx'
        · exact h1 x (List.mem_cons_self x L1')
        · exact hn x hx'

theorem find?_middle_t (t : String) (L1 : List ToolUseState) (tb : ToolUseState)
    (L2 : List ToolUseState) (h1 : ∀ x ∈ L1, x.id ≠ t) (ht : tb.id = t) :
    List.find? (fun x => x.id == t) (L1 ++ tb :: L2) = some tb := by
  have h0 : List.find? (fun x => x.id == t) L1 = none :=
    List.find?_eq_none.mpr (fun x hx => by simp [h1 x hx])
  rw [List.find?_append, h0, Option.none_or]
  rw [List.find?_cons_of_pos _ (by simp [ht])]

/-- Post-start phase: once tool `t`'s record sits in the list with buffer
`buf`, running any start-free (for `t`) suffix leaves it in place with the
addressed deltas appended in order. -/
theorem argRun_after (t : String) (evs : List ArgEv) :
    ∀ (m : List (Nat × String)) (L1 : List ToolUseState) (tb : ToolUseState)
      (L2 : List ToolUseState) (buf : String),
      tb.id = t → tb.inputJson = some buf →
      (∀ x ∈ L1, x.id ≠ t) → (∀ x ∈ L2, x.id ≠ t) →
      t ∉ startIds evs →
      ∃ L1' tb' L2', (argRun evs (m, L1 ++ tb :: L2)).2 = L1' ++ tb' :: L2' ∧
        (∀ x ∈ L1', x.id ≠ t) ∧ (∀ x ∈ L2', x.id ≠ t) ∧ tb'.id = t ∧
        tb'.inputJson = some (buf ++ joinAll (addressedDeltas t m evs)) := by
  induction evs with
  | nil =>
    intro m L1 tb L2 buf ht hbuf h1 h2 _
    refine ⟨L1, tb, L2, rfl, h1, h2, ht, ?_⟩
    rw [show buf ++ joinAll (addressedDeltas t m ([] : List ArgEv)) = buf from String.append_empty buf]
    exact hbuf
  | cons e rest ih =>
    intro m L1 tb L2 buf ht hbuf h1 h2 hns
    cases e with
    | start i id nm inp =>
      have hid : id ≠ t := by
        intro h
        exact hns (by rw [h]; exact List.mem_cons_self t (startIds rest))
      have hns' : t ∉ startIds rest := fun h => hns (List.mem_cons_of_mem _ h)
      have h2' : ∀ x ∈ L2 ++ [({ id := id, name := nm, input := inp, streamIndex := i, inputJson := some "" } : ToolUseState)], x.id ≠ t := by
        intro x hx
        rcases List.mem_append.mp hx with h | h
        · exact h2 x h
        · rw [List.mem_singleton] at h
          rw [h]
          exact hid
      obtain ⟨L1', tb', L2', heq, h1', h2'', ht', hbuf'⟩ :=
        ih (setA m i id) L1 tb _ buf ht hbuf h1 h2' hns'
      refine ⟨L1', tb', L2', ?_, h1', h2'', ht', hbuf'⟩
      show (argRun rest (setA m i id, (L1 ++ tb :: L2) ++
        [{ id := id, name := nm, input := inp, streamIndex := i,
           inputJson := some "" }])).2 = L1' ++ tb' :: L2'
      rw [show (L1 ++ tb :: L2) ++ [({ id := id, name := nm, input := inp, streamIndex := i, inputJson := some "" } : ToolUseState)] = L1 ++ tb :: (L2 ++ [({ id := id, name := nm, input := inp, streamIndex := i, inputJson := some "" } : ToolUseState)]) from by simp]
      exact heq
    | delta i d =>
      by_cases hd : (getA m i).getD "" = t
      · have hsel : (tb.id == (getA m i).getD "") = true := by
          rw [ht, hd]
          exact beq_self_eq_true t
        have h1f : ∀ x ∈ L1, (x.id == (getA m i).getD "") = false := by
          intro x hx
          rw [hd]
          exact beq_eq_false_iff_ne.mpr (h1 x hx)
        have hmap := mapFirstState_hit (fun x => x.id == (getA m i).getD "")
          (applyInputDelta d) tb L2 hsel L1 h1f
        have htb2 : (applyInputDelta d tb).id = t := by
          rw [applyInputDelta_id]
          exact ht
        have hbuf2 : (applyInputDelta d tb).inputJson = some (buf ++ d) := by
          rw [applyInputDelta_inputJson, hbuf]
          rfl
        obtain ⟨L1', tb', L2', heq, h1', h2', ht', hbuf'⟩ :=
          ih m L1 (applyInputDelta d tb) L2 (buf ++ d) htb2 hbuf2 h1 h2 hns
        refine ⟨L1', tb', L2', ?_, h1', h2', ht', ?_⟩
        · show (argRun rest (m, mapFirstState (fun x => x.id == (getA m i).getD "")
            (applyInputDelta d) (L1 ++ tb :: L2))).2 = L1' ++ tb' :: L2'
          rw [hmap]
          exact heq
        · rw [hbuf']
          rw [show addressedDeltas t m (ArgEv.delta i d :: rest)
            = d :: addressedDeltas t m rest from by simp only [addressedDeltas, if_pos hd]]
          rw [show joinAll (d :: addressedDeltas t m rest)
            = d ++ joinAll (addressedDeltas t m rest) from rfl]
          rw [String.append_assoc]
      · have hsel : (tb.id == (getA m i).getD "") = false := by
          rw [ht]
          exact beq_eq_false_iff_ne.mpr (fun h => hd h.symm)
        obtain ⟨L1a, L2a, hmapeq, h1a, hor⟩ :=
          mapFirstState_append_mid (fun x => x.id == (getA m i).getD "")
            (applyInputDelta d) t (applyInputDelta_id d) tb L2 hsel L1 h1
        have h2a : ∀ x ∈ L2a, x.id ≠ t := by
          rcases hor with rfl | rfl
          · exact h2
          · exact mapFirstState_noT _ _ (applyInputDelta_id d) t L2 h2
        obtain ⟨L1', tb', L2', heq, h1', h2', ht', hbuf'⟩ :=
          ih m L1a tb L2a buf ht hbuf h1a h2a hns
        refine ⟨L1', tb', L2', ?_, h1', h2', ht', ?_⟩
        · show (argRun rest (m, mapFirstState (fun x => x.id == (getA m i).getD "")
            (applyInputDelta d) (L1 ++ tb :: L2))).2 = L1' ++ tb' :: L2'
          rw [hmapeq]
          exact heq
        · rw [hbuf']
          rw [show addressedDeltas t m (ArgEv.delta i d :: rest)
            = addressedDeltas t m rest from by simp only [addressedDeltas, if_neg hd]]

/-- Pre-start phase: while no binding and no record mention `t`, running a
stream that still contains `t`'s (unique) start produces exactly one record
for `t` whose buffer is the addressed-delta concatenation. -/
theorem argRun_before (t : String) (ht : t ≠ "") (evs : List ArgEv) :
    ∀ (m : List (Nat × String)) (L : List ToolUseState),
      (∀ i v, getA m i = some v → v ≠ t) → (∀ x ∈ L, x.id ≠ t) →
      (startIds evs).Nodup → t ∈ startIds evs →
      ∃ L1' tb' L2', (argRun evs (m, L)).2 = L1' ++ tb' :: L2' ∧
        (∀ x ∈ L1', x.id ≠ t) ∧ (∀ x ∈ L2', x.id ≠ t) ∧ tb'.id = t ∧
        tb'.inputJson = some (joinAll (addressedDeltas t m evs)) := by
  induction evs with
  | nil =>
    intro m L _ _ _ hmem
    cases hmem
  | cons e rest ih =>
    intro m L hm hL hnd hmem
    cases e with
    | start i id nm inp =>
      by_cases hid : id = t
      · subst hid
        have hns : id ∉ startIds rest := (List.nodup_cons.mp hnd).1
        obtain ⟨L1', tb', L2', heq, h1', h2', ht', hbuf'⟩ :=
          argRun_after id rest (setA m i id) L
            { id := id, name := nm, input := inp, streamIndex := i, inputJson := some "" }
            [] "" rfl rfl hL (by intro x hx; cases hx) hns
        refine ⟨L1', tb', L2', ?_, h1', h2', ht', ?_⟩
        · show (argRun rest (setA m i id, L ++
            [{ id := id, name := nm, input := inp, streamIndex := i,
               inputJson := some "" }])).2 = L1' ++ tb' :: L2'
          rw [show L ++ [({ id := id, name := nm, input := inp, streamIndex := i, inputJson := some "" } : ToolUseState)] = L ++ ({ id := id, name := nm, input := inp, streamIndex := i, inputJson := some "" } : ToolUseState) :: [] from rfl]
          exact heq
        · rw [hbuf']
          rw [show ("" ++ joinAll (addressedDeltas id (setA m i id) rest))
            = joinAll (addressedDeltas id (setA m i id) rest) from rfl]
          rfl
      · have hm' : ∀ j v, getA (setA m i id) j = some v → v ≠ t := by
          intro j v hj
          by_cases hji : j = i
          · subst hji
            rw [getA_setA_self] at hj
            cases hj
            exact hid
          · rw [getA_setA_ne m i j id hji] at hj
            exact hm j v hj
        have hL' : ∀ x ∈ L ++ [({ id := id, name := nm, input := inp, streamIndex := i, inputJson := some "" } : ToolUseState)], x.id ≠ t := by
          intro x hx
          rcases List.mem_append.mp hx with h | h
          · exact hL x h
          · rw [List.mem_singleton] at h
            rw [h]
            exact hid
        have hmem' : t ∈ startIds rest := by
          rcases List.mem_cons.mp hmem with h | h
          · exact absurd h.symm hid
          · exact h
        exact ih (setA m i id) _ hm' hL' (List.nodup_cons.mp hnd).2 hmem'
    | delta i d =>
      have hd : (getA m i).getD "" ≠ t := by
        cases hg : getA m i with
        | none => exact Ne.symm ht
        | some v => exact hm i v hg
      have hL' := mapFirstState_noT (fun x => x.id == (getA m i).getD "")
        (applyInputDelta d) (applyInputDelta_id d) t L hL
      obtain ⟨L1', tb', L2', heq, h1', h2', ht', hbuf'⟩ := ih m _ hm hL' hnd hmem
      refine ⟨L1', tb', L2', heq, h1', h2', ht', ?_⟩
      rw [hbuf']
      rw [show addressedDeltas t m (ArgEv.delta i d :: rest)
        = addressedDeltas t m rest from by simp only [addressedDeltas, if_neg hd]]

theorem findToolBlockById_c6State (b : Session) (m : List (Nat × String))
    (L : List ToolUseState) (mid : String) (ts : Nat) (t : String) :
    findToolBlockById (c6State b m L mid ts) t = List.find? (fun x => x.id == t) L := by
  have hmsg : msgTool? ⟨mid, Role.assistant, MsgContent.blocks (L.map ContentBlock.toolUse), ts⟩ t
      = List.find? (fun x => x.id == t) L := by
    unfold msgTool? findToolInBlocks
    rw [if_pos rfl]
    exact findFirstToolWhere_map_toolUse _ L
  show (match msgTool? ⟨mid, Role.assistant, MsgContent.blocks (L.map ContentBlock.toolUse), ts⟩ t with
    | some tb => some tb
    | none => findToolRev [] t) = List.find? (fun x => x.id == t) L
  rw [hmsg]
  cases List.find? (fun x => x.id == t) L <;> rfl

/-- C6: for every interleaving of untagged tool starts and argument deltas
(with pairwise-distinct started tool ids), each started tool's raw-argument
buffer ends up as exactly the in-order concatenation of the deltas addressed
to its id through the stream-index-to-tool-id mapping. -/
theorem delta_routing_by_stream_index (now : Nat) (sid : String) (cr : Nat)
    (evs : List ArgEv) (t : String) (ht : t ≠ "")
    (hnd : (startIds evs).Nodup) (hmem : t ∈ startIds evs) :
    ∃ tb, findToolBlockById (processEvents now (evs.map argEvToEv) (mkSession sid cr)) t
        = some tb ∧ tb.inputJson = some (joinAll (addressedDeltas t [] evs)) := by
  cases evs with
  | nil => cases hmem
  | cons e rest =>
    obtain ⟨L1', tb', L2', heq, h1', h2', ht', hbuf'⟩ :=
      argRun_before t ht (e :: rest) [] []
        (by intro i v h; cases h) (by intro x hx; cases hx) hnd hmem
    rw [show (e :: rest).map argEvToEv = argEvToEv e :: rest.map argEvToEv from rfl]
    rw [show processEvents now (argEvToEv e :: rest.map argEvToEv) (mkSession sid cr)
      = processEvents now (rest.map argEvToEv)
          (processEvent now (argEvToEv e) (mkSession sid cr)) from rfl]
    rw [processEvent_argInit, processEvents_argRun, findToolBlockById_c6State]
    have heq' : (argRun rest (argStep e ([], []))).2 = L1' ++ tb' :: L2' := heq
    rw [heq']
    exact ⟨tb', find?_middle_t t L1' tb' L2' h1' ht', hbuf'⟩

def c6Evs : List ArgEv :=
  [.start 0 "ta" "Bash" (.obj []), .delta 0 "\x7b\x22a\x22",
   .start 1 "tb" "Read" (.obj []), .delta 1 "\x7b\x7d", .delta 0 ":1\x7d"]

/-- Witness for C6: two tools streaming interleaved argument deltas; tool
`ta`'s buffer is exactly its own two deltas concatenated. -/
theorem delta_routing_by_stream_index_witness :
    ("ta" ≠ "" ∧ (startIds c6Evs).Nodup ∧ "ta" ∈ startIds c6Evs) ∧
    (∃ tb, findToolBlockById (processEvents 7 (c6Evs.map argEvToEv) (mkSession "s6" 0)) "ta"
        = some tb ∧ tb.inputJson = some (joinAll (addressedDeltas "ta" [] c6Evs))) :=
  ⟨⟨by decide, by decide, by decide⟩,
   delta_routing_by_stream_index 7 "s6" 0 c6Evs "ta" (by decide) (by decide) (by decide)⟩

/-! ## C2: lifecycle transition relation -/

/-- C2 counterexample: the state (idle, loop live) is reachable (enqueue a
turn, then receive the terminal result while the driving loop keeps
consuming), and from it a stream failure moves the lifecycle state from
idle directly to error — an edge the claim excludes. -/
theorem lifecycle_idle_to_error_reachable :
    EngineReachable ⟨.idle, true⟩ ∧
    engineStep .streamFailure ⟨.idle, true⟩ = some ⟨.error, false⟩ ∧
    ¬ claimedEdge .idle .error := by
  refine ⟨?_, rfl, by decide⟩
  exact .step .turnComplete ⟨.running, true⟩ _
    (.step .enqueueTurn engineInit _ .init rfl) rfl

theorem engine_error_loop_dead (s : EngineState) (hr : EngineReachable s) :
    s.state = .error → s.loopLive = false := by
  induction hr with
  | init => intro h; cases h
  | step op s s' _ hstep _ =>
    revert hstep
    obtain ⟨st, live⟩ := s
    obtain ⟨st', live'⟩ := s'
    cases op <;> cases st <;> cases live <;> cases st' <;> cases live' <;> decide

/-- C2 amended: every state-changing step of the engine, from a reachable
state, moves along idle→running, running→idle, running→error, error→running,
or additionally idle→error (stream failure after the terminal result of the
turn, while the driving loop is still draining the stream). -/
theorem lifecycle_edges (s s' : EngineState) (op : EngineOp)
    (hr : EngineReachable s) (hstep : engineStep op s = some s')
    (hne : s.state ≠ s'.state) : amendedEdge s.state s'.state := by
  have hdead := engine_error_loop_dead s hr
  revert hstep hne hdead
  obtain ⟨st, live⟩ := s
  obtain ⟨st', live'⟩ := s'
  cases op <;> cases st <;> cases live <;> cases st' <;> cases live' <;> decide

/-- Witness for the amended lifecycle theorem at the initial state. -/
theorem lifecycle_edges_witness :
    engineStep .enqueueTurn engineInit = some ⟨.running, true⟩ ∧
    amendedEdge .idle .running :=
  ⟨rfl, lifecycle_edges engineInit ⟨.running, true⟩ .enqueueTurn .init rfl (by decide)⟩

end AgentSession
